import Mathlib

/-!
Verification of the CES package validator (agent-package structural validation).

This file is a shallow embedding of the validator's core: the path/classification
helpers (`pathUtils`), the instruction-markup parser (`instructionParser`), the
tool-inventory construction (`packageIndex.buildToolInventory`) and the rule
engine (`rules.runRules`).  Filesystem access is modelled by an explicit
`FileSystem` oracle of pure functions; JSON/YAML documents are modelled by the
inductive `Json`; JavaScript `Set<string>` values are modelled by lists in
insertion order with set-membership semantics.

String handling: the embedding uses its own structurally recursive character-list
implementations of trim / toLower / split / replace / startsWith / endsWith /
substring search (all JavaScript string operations used by the source are on
ASCII data, where these agree), so that every definition evaluates inside the
kernel on concrete inputs.  `localeCompare` is modelled as code-point
lexicographic comparison, and the (stable) JavaScript `Array.prototype.sort` is
modelled by `List.mergeSort` on the comparator's non-strict order.
-/

namespace CES

/-! ## Character-list string primitives -/

/-- Characters of a string (the embedding computes on `String.data`). -/
def chars (s : String) : List Char := s.data

/-- Build a string back from its characters. -/
def ofChars (cs : List Char) : String := ⟨cs⟩

/-- Trim ASCII/unicode whitespace from both ends (models `String.prototype.trim`). -/
def trimChars (cs : List Char) : List Char :=
  ((cs.dropWhile Char.isWhitespace).reverse.dropWhile Char.isWhitespace).reverse

/-- Models `value.trim()`. -/
def strTrim (s : String) : String := ofChars (trimChars (chars s))

/-- Models `value.toLowerCase()` (ASCII; tags and the localhost scan are ASCII). -/
def strToLower (s : String) : String := ofChars ((chars s).map Char.toLower)

/-- Split a character list at every occurrence of the separator character
(models JavaScript `split` with a one-character separator). -/
def splitChar (sep : Char) : List Char → List (List Char)
  | [] => [[]]
  | c :: rest =>
    let r := splitChar sep rest
    if c = sep then [] :: r
    else
      match r with
      | [] => [[c]]
      | h :: t => (c :: h) :: t

/-- Models `s.split(sep)` for a one-character separator. -/
def strSplitOn (s : String) (sep : Char) : List String :=
  (splitChar sep (chars s)).map ofChars

/-- Models `s.startsWith(pat)`. -/
def strStartsWith (s pat : String) : Bool := (chars pat).isPrefixOf (chars s)

/-- Models `s.endsWith(pat)`. -/
def strEndsWith (s pat : String) : Bool := (chars pat).reverse.isPrefixOf (chars s).reverse

/-- Does `needle` occur as a contiguous run inside `hay`? -/
def substrOccursIn (needle : List Char) : List Char → Bool
  | [] => needle.isEmpty
  | c :: rest => needle.isPrefixOf (c :: rest) || substrOccursIn needle rest

/-- Models `hay.includes(needle)` (substring containment). -/
def strIncludes (hay needle : String) : Bool := substrOccursIn (chars needle) (chars hay)

/-- Models `list.join(sep)`. -/
def strJoinSep (sep : String) : List String → String
  | [] => ""
  | [x] => x
  | x :: rest => x ++ sep ++ strJoinSep sep rest

/-- Code-point comparison of strings, used to model `localeCompare` and the
default JavaScript string sort (the validator's data is ASCII, where the two
agree). -/
def charsCompare : List Char → List Char → Ordering
  | [], [] => .eq
  | [], _ :: _ => .lt
  | _ :: _, [] => .gt
  | a :: as, b :: bs =>
    if a.toNat < b.toNat then .lt
    else if b.toNat < a.toNat then .gt
    else charsCompare as bs

/-- Three-way string comparison (models `localeCompare`). -/
def compareStr (a b : String) : Ordering := charsCompare (chars a) (chars b)

/-- Non-strict string order induced by `compareStr`. -/
def strLeB (a b : String) : Bool :=
  match compareStr a b with
  | .gt => false
  | _ => true

/-- Stable insertion into a `strLeB`-sorted list. -/
def insertStr (x : String) : List String → List String
  | [] => [x]
  | y :: ys => if strLeB y x then y :: insertStr x ys else x :: y :: ys

/-- Models the default JavaScript `Array.prototype.sort()` on strings. -/
def sortStrings : List String → List String
  | [] => []
  | x :: xs => insertStr x (sortStrings xs)

/-! ## Core data model (`types.ts`) -/

/-- Issue severity. -/
inductive Severity where
  | error
  | warning
deriving DecidableEq, Repr

/-- One validation finding (`ValidationIssue`); `line` is optional and 1-based. -/
structure ValidationIssue where
  code : String
  message : String
  severity : Severity
  file : String
  line : Option Nat
deriving DecidableEq, Repr

/-- A parsed structured-config document: JSON/YAML values. -/
inductive Json where
  | str (s : String)
  | num (n : Int)
  | bool (b : Bool)
  | null
  | arr (elems : List Json)
  | obj (fields : List (String × Json))

/-- Field access on a record document (`undefined` becomes `none`; access on a
non-record value is `none`). -/
def Json.lookup : Json → String → Option Json
  | .obj fields, key => (fields.find? (fun f => f.1 == key)).map (·.2)
  | _, _ => none

/-- Models `isRecord`: a non-null object that is not an array. -/
def Json.isRecord : Json → Bool
  | .obj _ => true
  | _ => false

/-- Models the JavaScript `key in record` test. -/
def Json.hasField (j : Json) (key : String) : Bool :=
  match j with
  | .obj fields => fields.any (·.1 == key)
  | _ => false

/-- Result of a document parser (`ParsedResult`): parsed data or an error. -/
structure ParsedResult where
  data : Option Json
  error : Option String

/-- The filesystem and document-parser oracle: the pure read-only interface the
rule engine consumes (`fs.existsSync`, `fs.statSync(...).isDirectory()`,
`parseJsonFile`, `parseOpenApiFile`, and the heuristic `findLineContaining`
line finder, whose one regex use site gets its own field). -/
structure FileSystem where
  existsSync : String → Bool
  isDirectorySync : String → Bool
  parseJsonFile : String → ParsedResult
  parseOpenApiFile : String → ParsedResult
  findLineContaining : String → String → Option Nat
  findLineOpenApiVersion : String → Option Nat

/-- `AgentInfo`: one entry per immediate subdirectory of `agents/`. -/
structure AgentInfo where
  name : String
  dirPath : String
  manifestPath : String
  manifestData : Option Json
  manifestError : Option String

/-- `ToolsetInfo`: one entry per immediate subdirectory of `toolsets/`. -/
structure ToolsetInfo where
  name : String
  dirPath : String
  manifestPath : String
  manifestData : Option Json
  manifestError : Option String
  openApiDirPath : String
  autoDetectedSchemaPath : Option String

/-- `EvaluationInfo`: one entry per immediate subdirectory of `evaluations/`. -/
structure EvaluationInfo where
  name : String
  dirPath : String
  manifestPath : String
  manifestData : Option Json
  manifestError : Option String

/-- `PythonToolInfo`: one entry per immediate subdirectory of `tools/`. -/
structure PythonToolInfo where
  name : String
  dirPath : String
  manifestPath : String
  manifestData : Option Json
  manifestError : Option String

/-- A parsed instruction section with its line span. -/
structure InstructionSection where
  name : String
  startLine : Nat
  endLine : Nat
deriving DecidableEq, Repr

/-- An `{@AGENT:}` / `{@TOOL:}` reference found in an instruction file. -/
inductive RefType where
  | agent
  | tool
deriving DecidableEq, Repr

/-- One reference record. -/
structure InstructionReference where
  type : RefType
  name : String
  line : Nat
deriving DecidableEq, Repr

/-- One extracted `tool_call()`-style expression. -/
structure InstructionToolCall where
  operation : String
  line : Nat
deriving DecidableEq, Repr

/-- `InstructionInfo`: the parsed metadata of one instruction file. -/
structure InstructionInfo where
  agentName : String
  filePath : String
  sections : List InstructionSection
  references : List InstructionReference
  toolCalls : List InstructionToolCall
  parseError : Option String
deriving DecidableEq, Repr

/-- `EnvironmentInfo`: the optional parsed `environment.json`. -/
structure EnvironmentInfo where
  filePath : String
  data : Option Json
  error : Option String

/-- The consolidated `PackageModel` consumed by the rule engine.
`directTools` and `openApiOperations` model JavaScript `Set<string>` values as
duplicate-free lists in insertion order (`buildToolInventory` below constructs
them that way); the unused-by-rules fields `pythonToolInfos` and
`openApiNamespacedOperations` of the source model are not carried here. -/
structure PackageModel where
  rootPath : String
  hasAppJson : Bool
  hasAppYaml : Bool
  manifestPath : Option String
  manifestData : Option Json
  manifestError : Option String
  files : List String
  directories : List String
  topLevelFiles : List String
  topLevelDirs : List String
  agentInfos : List AgentInfo
  toolsetInfos : List ToolsetInfo
  evaluationInfos : List EvaluationInfo
  instructionInfos : List InstructionInfo
  guardrailDirs : List String
  environment : Option EnvironmentInfo
  directTools : List String
  openApiOperations : List String

/-! ## Path helpers (`pathUtils.ts`) -/

/-- Models `normalizeSeparators`: every backslash becomes a forward slash
(the replace pattern is the single character `\`). -/
def normalizeSeparators (p : String) : String :=
  ofChars ((chars p).map (fun c => if c = '\\' then '/' else c))

/-- Models `node:path.join` for the validator's two-component joins (all call
sites join a directory path with a relative name). -/
def pathJoin (a b : String) : String := a ++ "/" ++ b

/-- Models `node:path.isAbsolute` on POSIX-style paths. -/
def isAbsolutePath (p : String) : Bool := strStartsWith p "/"

/-- Models `toRelativePath` = `normalizeSeparators(path.relative(root, target))`
for targets collected under the root (the model builder only puts
`root`-prefixed absolute paths into `files`). -/
def toRelativePath (rootPath targetPath : String) : String :=
  normalizeSeparators
    (if strStartsWith targetPath (rootPath ++ "/") then
      ofChars ((chars targetPath).drop (chars (rootPath ++ "/")).length)
    else targetPath)

/-- Models `splitRelativePath`: normalize, split on `/`, drop empty segments. -/
def splitRelativePath (relativePath : String) : List String :=
  (strSplitOn (normalizeSeparators relativePath) '/').filter (fun s => s ≠ "")

/-- Models `getTopLevelSegment`. -/
def getTopLevelSegment (relativePath : String) : Option String :=
  match splitRelativePath relativePath with
  | [] => none
  | s :: _ => some s

/-- Models `getDepthBelowTopLevel`. -/
def getDepthBelowTopLevel (relativePath : String) : Nat :=
  let segments := splitRelativePath relativePath
  if segments.length ≤ 1 then 0 else segments.length - 1

/-- Models `isLikelyInlineGlobalInstruction`: empty → false; a value containing
a newline or carriage return → true (inline); a value ending in `.txt` or
containing `/` → false (file reference); otherwise inline iff longer than 20
characters. -/
def isLikelyInlineGlobalInstruction (value : String) : Bool :=
  let trimmed := strTrim value
  if (chars trimmed).length = 0 then false
  else if (chars trimmed).contains '\n' || (chars trimmed).contains '\r' then true
  else if strEndsWith trimmed ".txt" || (chars trimmed).contains '/' then false
  else (chars trimmed).length > 20

/-! ## Instruction parser (`instructionParser.ts`)

The parser's section tracking and unclosed-section error are embedded from the
source; the independent `{@AGENT:}` / `{@TOOL:}` / `tool_call()` extraction
loops write to separate accumulators that never influence `sections`,
`openSections` or `parseError`, and are left to the `InstructionInfo` data of
the package model. -/

/-- The five recognized section tags, in the regexes' alternation order. -/
def knownSectionNames : List String := ["role", "persona", "constraints", "taskflow", "examples"]

/-- One still-open section on the parser stack. -/
structure OpenSection where
  name : String
  startLine : Nat
deriving DecidableEq, Repr

/-- Models `SECTION_OPEN_RE = /^<(role|persona|constraints|taskflow|examples)>/i`
applied to the trimmed line: an opening tag is recognized only as a prefix.
The stored name is the canonical lowercase one (the source lowercases the
capture). -/
def matchOpenTag (trimmed : String) : Option String :=
  knownSectionNames.find? (fun name => strStartsWith (strToLower trimmed) ("<" ++ name ++ ">"))

/-- Scan for the leftmost closing tag `</name>` (the alternatives are
prefix-free, so at most one name matches per position). -/
def findCloseTagIn : List Char → Option String
  | [] => none
  | c :: rest =>
    match knownSectionNames.find? (fun name => (chars ("</" ++ name ++ ">")).isPrefixOf (c :: rest)) with
    | some name => some name
    | none => findCloseTagIn rest

/-- Models `SECTION_CLOSE_RE = /<\/(role|persona|constraints|taskflow|examples)>/i`
applied to the trimmed line: a closing tag is recognized anywhere in the line. -/
def matchCloseTag (trimmed : String) : Option String :=
  findCloseTagIn (chars (strToLower trimmed))

/-- Models `findLastOpenSection` + `splice`: the open stack is kept most recent
first (the source array keeps oldest first and searches from the end), so the
last-opened section of the given name is the first match here.  Returns the
popped entry and the remaining stack, or `none` when no section of that name is
open. -/
def popLastOpenSection : List OpenSection → String → Option (OpenSection × List OpenSection)
  | [], _ => none
  | s :: rest, name =>
    if s.name = name then some (s, rest)
    else
      match popLastOpenSection rest name with
      | some (found, remaining) => some (found, s :: remaining)
      | none => none

/-- Parser state: emitted sections (in emission order) and the open stack
(most recently opened first). -/
structure InstrParseState where
  sections : List InstructionSection
  openSections : List OpenSection
deriving DecidableEq, Repr

/-- Process one line of an instruction file (the section-tracking part of the
source's per-line loop): push an opening tag, then pop/emit on a closing tag. -/
def processLine (st : InstrParseState) (lineNumber : Nat) (line : String) : InstrParseState :=
  let trimmed := strTrim line
  let st1 :=
    match matchOpenTag trimmed with
    | some name => { st with openSections := ⟨name, lineNumber⟩ :: st.openSections }
    | none => st
  match matchCloseTag trimmed with
  | some closeName =>
    match popLastOpenSection st1.openSections closeName with
    | some (opened, remaining) =>
      { st1 with
        sections := st1.sections ++ [⟨opened.name, opened.startLine, lineNumber⟩]
        openSections := remaining }
    | none => st1
  | none => st1

/-- Models the line split `content.split(/\r?\n/)`: split on `\n`, then drop
one trailing `\r` from each piece. -/
def splitInstructionLines (content : String) : List String :=
  (splitChar '\n' (chars content)).map (fun cs =>
    ofChars (if cs.getLast? = some '\r' then cs.dropLast else cs))

/-- The aggregated unclosed-section message; `openStack` is most recent first,
the source's array order (oldest first) is its reverse. -/
def unclosedSectionsMessage (openStack : List OpenSection) : String :=
  "Unclosed section(s): " ++
    strJoinSep ", "
      ((openStack.reverse).map (fun s => "<" ++ s.name ++ "> at line " ++ toString s.startLine))

/-- Result of parsing one instruction file's content. -/
structure ParsedInstruction where
  sections : List InstructionSection
  openSections : List OpenSection
  parseError : Option String
deriving DecidableEq, Repr

/-- The parser state after the per-line loop (lines are 1-based). -/
def instrFinalState (content : String) : InstrParseState :=
  ((splitInstructionLines content).enum).foldl
    (fun st p => processLine st (p.1 + 1) p.2) ⟨[], []⟩

/-- Models `parseInstructionFile` on the file's content (the read already
succeeded; an unreadable file takes the source's early-return branch, which
never reaches this loop). -/
def parseInstructionFile (content : String) : ParsedInstruction :=
  { sections := (instrFinalState content).sections
    openSections := (instrFinalState content).openSections
    parseError :=
      if (instrFinalState content).openSections.isEmpty then none
      else some (unclosedSectionsMessage (instrFinalState content).openSections) }

/-! ## Rule engine (`rules.ts`)

Each `validate*` function below translates the source rule of the same name;
`pushIssue` calls become list elements in push order, `continue`/early `return`
become the corresponding branch structure.  JavaScript truthiness tests on
strings (`if (toolsetName)`, `if (declaredSchemaPath)`) are modelled as
non-emptiness tests. -/

/-- Models `pushIssue` (the issue constructor). -/
def mkIssue (code message : String) (severity : Severity) (file : String)
    (line : Option Nat) : ValidationIssue :=
  { code := code, message := message, severity := severity, file := file, line := line }

/-- Models `isRecord(value)` on a possibly-`null` document. -/
def optIsRecord : Option Json → Bool
  | some j => j.isRecord
  | none => false

/-- Models property access `doc.key` on a possibly-`null` document. -/
def optLookup (o : Option Json) (key : String) : Option Json :=
  o.bind (fun j => j.lookup key)

/-- `ROOT_DEPTH_LIMIT`. -/
def ROOT_DEPTH_LIMIT : Nat := 2

/-- `TOOLSET_DEPTH_LIMIT`. -/
def TOOLSET_DEPTH_LIMIT : Nat := 3

/-- `REQUIRED_SECTIONS` from the instruction parser module. -/
def REQUIRED_SECTIONS : List String := ["role"]

/-- Models `displayName.replace(/\s+/g, "_")`: each run of whitespace becomes
one underscore (`inRun` tracks whether the previous character was whitespace). -/
def squashWhitespaceRuns (inRun : Bool) : List Char → List Char
  | [] => []
  | c :: rest =>
    if c.isWhitespace then (if inRun then [] else ['_']) ++ squashWhitespaceRuns true rest
    else c :: squashWhitespaceRuns false rest

/-- The underscore-substituted guardrail name variant. -/
def underscoreVariant (s : String) : String := ofChars (squashWhitespaceRuns false (chars s))

/-- Models `resolveGuardrailManifestPath`: try the literal name and the
underscore variant (a `Set`, so the variant is dropped when equal), each first
as `guardrails/<c>/<c>.json` then as `guardrails/<c>.json`. -/
def resolveGuardrailManifestPath (fs : FileSystem) (rootPath displayName : String) :
    Option String :=
  let variant := underscoreVariant displayName
  let candidates := if variant = displayName then [displayName] else [displayName, variant]
  candidates.findSome? (fun candidate =>
    let nestedPath := pathJoin (pathJoin (pathJoin rootPath "guardrails") candidate) (candidate ++ ".json")
    if fs.existsSync nestedPath then some nestedPath
    else
      let flatPath := pathJoin (pathJoin rootPath "guardrails") (candidate ++ ".json")
      if fs.existsSync flatPath then some flatPath else none)

/-- Models `readDeclaredSchemaPath`. -/
def readDeclaredSchemaPath (toolsetManifest : Option Json) : Option String :=
  match optLookup (optLookup toolsetManifest "openApiToolset") "openApiSchema" with
  | some (.str s) => some s
  | _ => none

/-- Models `extractToolsetName`. -/
def extractToolsetName (toolsetEntry : Json) : Option String :=
  match toolsetEntry with
  | .str s => some s
  | _ =>
    match toolsetEntry.lookup "toolset" with
    | some (.str s) => some s
    | _ => none

/-- Models the string test of `containsLocalhostReference`:
`/localhost|127\.0\.0\.1/i.test(value)`. -/
def containsLocalhostString (s : String) : Bool :=
  strIncludes (strToLower s) "localhost" || strIncludes (strToLower s) "127.0.0.1"

/-- Models `containsLocalhostReference`: recursive scan of the whole document
for a matching string value, through arrays and records. -/
def containsLocalhostReference : Json → Bool
  | .str s => containsLocalhostString s
  | .arr elems => elems.attach.any (fun e => containsLocalhostReference e.1)
  | .obj fields => fields.attach.any (fun f => containsLocalhostReference f.1.2)
  | .num _ => false
  | .bool _ => false
  | .null => false
decreasing_by
  · have h := List.sizeOf_lt_of_mem e.2
    simp only [Json.arr.sizeOf_spec]
    omega
  · have h := List.sizeOf_lt_of_mem f.2
    have h2 : sizeOf f.1.2 < sizeOf f.1 := by
      obtain ⟨⟨a, b⟩, hf⟩ := f
      simp only [Prod.mk.sizeOf_spec]
      omega
    simp only [Json.obj.sizeOf_spec]
    omega

/-- The root-agent directory `agents/<name>`. -/
def rootAgentDirOf (m : PackageModel) (rootAgent : String) : String :=
  pathJoin (pathJoin m.rootPath "agents") rootAgent

/-- The expected root-agent manifest path `agents/<name>/<name>.json`. -/
def rootAgentManifestOf (m : PackageModel) (rootAgent : String) : String :=
  pathJoin (rootAgentDirOf m rootAgent) (rootAgent ++ ".json")

/-- Models `validateRootAgentReference`. -/
def validateRootAgentReference (fs : FileSystem) (m : PackageModel) (rootAgent : String) :
    List ValidationIssue :=
  if !(fs.existsSync (rootAgentDirOf m rootAgent) &&
      fs.isDirectorySync (rootAgentDirOf m rootAgent)) then
    [mkIssue "CES_ROOT_AGENT_DIR_MISSING"
      ("rootAgent '" ++ rootAgent ++ "' must exist at agents/" ++ rootAgent)
      .error (m.manifestPath.getD (pathJoin m.rootPath "app.yaml"))
      (fs.findLineContaining (m.manifestPath.getD "") "rootAgent")]
  else if !fs.existsSync (rootAgentManifestOf m rootAgent) then
    [mkIssue "CES_ROOT_AGENT_MANIFEST_MISSING"
      ("rootAgent manifest missing at agents/" ++ rootAgent ++ "/" ++ rootAgent ++ ".json")
      .error (rootAgentManifestOf m rootAgent) (some 1)]
  else []

/-- Resolve a manifest-declared path against the package root (the source's
`path.isAbsolute(p) ? p : path.join(rootPath, p)` pattern). -/
def resolveFromRoot (rootPath p : String) : String :=
  if isAbsolutePath p then p else pathJoin rootPath p

/-- The resolved `globalInstruction` file path (inlined in the source rule). -/
def resolveGlobalInstructionPath (rootPath value : String) : String :=
  resolveFromRoot rootPath (normalizeSeparators (strTrim value))

/-- The `CES_GLOBAL_INSTRUCTION_MISSING` issue. -/
def globalInstructionMissingIssue (fs : FileSystem) (manifestPath value : String) :
    ValidationIssue :=
  mkIssue "CES_GLOBAL_INSTRUCTION_MISSING"
    ("globalInstruction path does not exist: " ++ normalizeSeparators (strTrim value))
    .error manifestPath (fs.findLineContaining manifestPath "globalInstruction")

/-- Models `validateGlobalInstructionReference`. -/
def validateGlobalInstructionReference (fs : FileSystem) (m : PackageModel) :
    List ValidationIssue :=
  match m.manifestPath with
  | none => []
  | some manifestPath =>
    if !(optIsRecord m.manifestData) then []
    else
      match optLookup m.manifestData "globalInstruction" with
      | some (.str globalInstruction) =>
        if strTrim globalInstruction = "" then []
        else if isLikelyInlineGlobalInstruction globalInstruction then []
        else if !fs.existsSync (resolveGlobalInstructionPath m.rootPath globalInstruction) then
          [globalInstructionMissingIssue fs manifestPath globalInstruction]
        else []
      | _ => []

/-- One entry of the `guardrails` array in `validateGuardrailReferences`. -/
def guardrailEntryIssues (fs : FileSystem) (rootPath manifestPath : String) (g : Json) :
    List ValidationIssue :=
  match g with
  | .str s =>
    if strTrim s = "" then []
    else
      match resolveGuardrailManifestPath fs rootPath s with
      | none =>
        [mkIssue "CES_GUARDRAIL_REFERENCE_MISSING"
          ("guardrail reference '" ++ s ++ "' does not map to an existing guardrail manifest")
          .error manifestPath (fs.findLineContaining manifestPath s)]
      | some guardrailPath =>
        match (fs.parseJsonFile guardrailPath).error with
        | some err =>
          [mkIssue "CES_GUARDRAIL_JSON_INVALID"
            ("guardrail manifest is invalid JSON: " ++ err)
            .error guardrailPath (some 1)]
        | none =>
          match optLookup (fs.parseJsonFile guardrailPath).data "displayName" with
          | some (.str displayName) =>
            if strTrim displayName ≠ strTrim s then
              [mkIssue "CES_GUARDRAIL_DISPLAYNAME_MISMATCH"
                ("guardrail displayName '" ++ strTrim displayName ++
                  "' differs from manifest reference '" ++ strTrim s ++ "'")
                .warning guardrailPath (fs.findLineContaining guardrailPath "displayName")]
            else []
          | _ => []
  | _ => []

/-- Models `validateGuardrailReferences`. -/
def validateGuardrailReferences (fs : FileSystem) (m : PackageModel) : List ValidationIssue :=
  match m.manifestPath with
  | none => []
  | some manifestPath =>
    if !(optIsRecord m.manifestData) then []
    else
      match optLookup m.manifestData "guardrails" with
      | some (.arr guardrails) => guardrails.flatMap (guardrailEntryIssues fs m.rootPath manifestPath)
      | _ => []

/-- Models `validateManifest` (including its calls into the root-agent,
global-instruction and guardrail reference checks). -/
def validateManifest (fs : FileSystem) (m : PackageModel) : List ValidationIssue :=
  match m.manifestPath with
  | none =>
    [mkIssue "CES_MANIFEST_MISSING" "Package must contain app.yaml or app.json at root"
      .error (pathJoin m.rootPath "app.yaml") (some 1)]
  | some manifestPath =>
    (if m.hasAppJson && m.hasAppYaml then
      [mkIssue "CES_MANIFEST_BOTH_PRESENT"
        "Both app.yaml and app.json are present. app.yaml takes precedence."
        .warning manifestPath (some 1)]
    else []) ++
    (if m.hasAppJson && !m.hasAppYaml then
      [mkIssue "CES_APP_JSON_ONLY"
        "app.json is supported by this validator, but Agent Studio import compatibility is typically app.yaml-first."
        .warning manifestPath (some 1)]
    else []) ++
    (match m.manifestError with
     | some err =>
       [mkIssue "CES_MANIFEST_PARSE_ERROR" ("Manifest parse error: " ++ err)
         .error manifestPath (some 1)]
     | none =>
       if !(optIsRecord m.manifestData) then
         [mkIssue "CES_MANIFEST_INVALID_ROOT" "Manifest root must be an object"
           .error manifestPath (some 1)]
       else
         (match optLookup m.manifestData "rootAgent" with
          | some (.str rootAgentValue) =>
            if strTrim rootAgentValue = "" then
              [mkIssue "CES_ROOT_AGENT_MISSING" "Manifest must define a non-empty rootAgent"
                .error manifestPath (fs.findLineContaining manifestPath "rootAgent")]
            else validateRootAgentReference fs m rootAgentValue
          | _ =>
            [mkIssue "CES_ROOT_AGENT_MISSING" "Manifest must define a non-empty rootAgent"
              .error manifestPath (fs.findLineContaining manifestPath "rootAgent")]) ++
         validateGlobalInstructionReference fs m ++
         validateGuardrailReferences fs m)

/-- Per-agent issues in `validateAgents` (`validateAgentManifest` inlined as the
leading error branch, which does not stop the remaining checks — a parse error
leaves `manifestData` null, so they are vacuous then). -/
def agentEntryIssues (fs : FileSystem) (m : PackageModel)
    (toolsetNames agentNames : List String) (agentInfo : AgentInfo) : List ValidationIssue :=
  (match agentInfo.manifestError with
   | some err =>
     [mkIssue "CES_AGENT_MANIFEST_INVALID"
       ("Agent manifest error for '" ++ agentInfo.name ++ "': " ++ err)
       .error agentInfo.manifestPath (some 1)]
   | none => []) ++
  (if !(optIsRecord agentInfo.manifestData) then []
   else
     (match optLookup agentInfo.manifestData "instruction" with
      | some (.str instruction) =>
        if strTrim instruction = "" then
          [mkIssue "CES_AGENT_INSTRUCTION_MISSING"
            ("Agent '" ++ agentInfo.name ++ "' must define instruction path")
            .error agentInfo.manifestPath (fs.findLineContaining agentInfo.manifestPath "instruction")]
        else
          (if normalizeSeparators (strTrim instruction) ≠
              "agents/" ++ agentInfo.name ++ "/instruction.txt" then
            [mkIssue "CES_AGENT_INSTRUCTION_PATH_MISMATCH"
              ("Agent '" ++ agentInfo.name ++ "' instruction should be '" ++
                ("agents/" ++ agentInfo.name ++ "/instruction.txt") ++ "'")
              .error agentInfo.manifestPath (fs.findLineContaining agentInfo.manifestPath "instruction")]
          else []) ++
          (if !fs.existsSync
              (resolveFromRoot m.rootPath (normalizeSeparators (strTrim instruction))) then
            [mkIssue "CES_AGENT_INSTRUCTION_FILE_MISSING"
              ("Instruction file does not exist: " ++ normalizeSeparators (strTrim instruction))
              .error agentInfo.manifestPath (fs.findLineContaining agentInfo.manifestPath "instruction")]
          else [])
      | _ =>
        [mkIssue "CES_AGENT_INSTRUCTION_MISSING"
          ("Agent '" ++ agentInfo.name ++ "' must define instruction path")
          .error agentInfo.manifestPath (fs.findLineContaining agentInfo.manifestPath "instruction")]) ++
     (match optLookup agentInfo.manifestData "childAgents" with
      | some (.arr childAgents) =>
        childAgents.flatMap (fun childAgent =>
          match childAgent with
          | .str childName =>
            if strTrim childName = "" then []
            else if agentNames.contains childName then []
            else
              [mkIssue "CES_CHILD_AGENT_MISSING"
                ("childAgent '" ++ childName ++ "' does not exist under agents/")
                .error agentInfo.manifestPath (fs.findLineContaining agentInfo.manifestPath childName)]
          | _ => [])
      | _ => []) ++
     (match optLookup agentInfo.manifestData "toolsets" with
      | some (.arr toolsets) =>
        toolsets.flatMap (fun toolsetEntry =>
          match extractToolsetName toolsetEntry with
          | some toolsetName =>
            if toolsetName = "" then []
            else if toolsetNames.contains toolsetName then []
            else
              [mkIssue "CES_AGENT_TOOLSET_REFERENCE_MISSING"
                ("Agent '" ++ agentInfo.name ++ "' references missing toolset '" ++ toolsetName ++ "'")
                .error agentInfo.manifestPath (fs.findLineContaining agentInfo.manifestPath toolsetName)]
          | none => [])
      | _ => []))

/-- Models `validateAgents`. -/
def validateAgents (fs : FileSystem) (m : PackageModel) : List ValidationIssue :=
  let toolsetNames := m.toolsetInfos.map (·.name)
  let agentNames := m.agentInfos.map (·.name)
  m.agentInfos.flatMap (agentEntryIssues fs m toolsetNames agentNames)

/-- The `CES_OPENAPI_SCHEMA_MISSING` issue for a declared-but-absent schema path. -/
def openApiSchemaMissingIssue (fs : FileSystem) (t : ToolsetInfo) (normalized : String) :
    ValidationIssue :=
  mkIssue "CES_OPENAPI_SCHEMA_MISSING"
    ("Declared OpenAPI schema does not exist: " ++ normalized)
    .error t.manifestPath (fs.findLineContaining t.manifestPath "openApiSchema")

/-- The `CES_OPENAPI_SCHEMA_NOT_FOUND` issue for an OpenAPI directory with no
resolvable schema. -/
def openApiSchemaNotFoundIssue (fs : FileSystem) (t : ToolsetInfo) : ValidationIssue :=
  mkIssue "CES_OPENAPI_SCHEMA_NOT_FOUND"
    ("Toolset '" ++ t.name ++ "' has open_api_toolset directory but no schema file")
    .error t.manifestPath (fs.findLineContaining t.manifestPath "openApiToolset")

/-- The schema-resolution step of `validateToolsets`: the declared path wins
when truthy; a missing declared path errors and is discarded (`schemaPath =
null`), it does not fall back to the auto-detected file; without a (truthy)
declared path the auto-detected file is used.  Returns the issues so far and
the effective schema path. -/
def toolsetResolveSchema (fs : FileSystem) (m : PackageModel) (t : ToolsetInfo) :
    List ValidationIssue × Option String :=
  match readDeclaredSchemaPath t.manifestData with
  | some declaredSchemaPath =>
    if declaredSchemaPath ≠ "" then
      if !fs.existsSync (resolveFromRoot m.rootPath (normalizeSeparators declaredSchemaPath)) then
        (([openApiSchemaMissingIssue fs t (normalizeSeparators declaredSchemaPath)] :
            List ValidationIssue),
          (none : Option String))
      else ([], some (resolveFromRoot m.rootPath (normalizeSeparators declaredSchemaPath)))
    else ([], t.autoDetectedSchemaPath)
  | none => ([], t.autoDetectedSchemaPath)

/-- Per-toolset issues in `validateToolsets`: resolve the effective schema
path, then the directory/schema presence and schema-document checks. -/
def toolsetEntryIssues (fs : FileSystem) (m : PackageModel) (t : ToolsetInfo) :
    List ValidationIssue :=
  match t.manifestError with
  | some err =>
    [mkIssue "CES_TOOLSET_MANIFEST_INVALID"
      ("Toolset '" ++ t.name ++ "' manifest error: " ++ err)
      .error t.manifestPath (some 1)]
  | none =>
    if (fs.existsSync t.openApiDirPath && fs.isDirectorySync t.openApiDirPath) &&
        (toolsetResolveSchema fs m t).2.isNone then
      (toolsetResolveSchema fs m t).1 ++ [openApiSchemaNotFoundIssue fs t]
    else
      match (toolsetResolveSchema fs m t).2 with
      | none => (toolsetResolveSchema fs m t).1
      | some schemaPath =>
        (toolsetResolveSchema fs m t).1 ++
        (match (fs.parseOpenApiFile schemaPath).error with
         | some err =>
           [mkIssue "CES_OPENAPI_PARSE_ERROR" ("OpenAPI schema parse error: " ++ err)
             .error schemaPath (some 1)]
         | none =>
           match (fs.parseOpenApiFile schemaPath).data with
           | some parsed =>
             if !parsed.isRecord then
               [mkIssue "CES_OPENAPI_INVALID_ROOT" "OpenAPI schema root must be an object"
                 .error schemaPath (some 1)]
             else if !(parsed.hasField "openapi" || parsed.hasField "swagger") then
               [mkIssue "CES_OPENAPI_VERSION_MISSING"
                 "OpenAPI schema must define either 'openapi' or 'swagger' at top level"
                 .error schemaPath (fs.findLineOpenApiVersion schemaPath)]
             else []
           | none =>
             [mkIssue "CES_OPENAPI_INVALID_ROOT" "OpenAPI schema root must be an object"
               .error schemaPath (some 1)])

/-- Models `validateToolsets`. -/
def validateToolsets (fs : FileSystem) (m : PackageModel) : List ValidationIssue :=
  m.toolsetInfos.flatMap (toolsetEntryIssues fs m)

/-- Models `validateUnsupportedDirectories` (the denylist holds one name). -/
def validateUnsupportedDirectories (fs : FileSystem) (m : PackageModel) : List ValidationIssue :=
  let targetFile := m.manifestPath.getD (pathJoin m.rootPath "app.yaml")
  (["evaluationDatasets"] : List String).flatMap (fun dirName =>
    if !m.topLevelDirs.contains dirName then []
    else
      [mkIssue "CES_UNSUPPORTED_IMPORT_DIRECTORY"
        ("Directory '" ++ dirName ++ "/' is not supported in CES import packages")
        .error targetFile (some ((fs.findLineContaining targetFile dirName).getD 1))])

/-- The `CES_NESTING_DEPTH_EXCEEDED` warning. -/
def nestingDepthIssue (filePath topLevel : String) (depth : Nat) : ValidationIssue :=
  mkIssue "CES_NESTING_DEPTH_EXCEEDED"
    (topLevel ++ "/ contains file nested " ++ toString depth ++
      " levels deep; expected max " ++ toString ROOT_DEPTH_LIMIT)
    .warning filePath (some 1)

/-- The `CES_TOOLSET_NESTING_DEPTH_EXCEEDED` warning. -/
def toolsetNestingDepthIssue (filePath : String) (depth : Nat) : ValidationIssue :=
  mkIssue "CES_TOOLSET_NESTING_DEPTH_EXCEEDED"
    ("toolsets/ contains file nested " ++ toString depth ++
      " levels deep; expected max " ++ toString TOOLSET_DEPTH_LIMIT)
    .warning filePath (some 1)

/-- The `CES_GUARDRAIL_NESTING_DEPTH_EXCEEDED` warning. -/
def guardrailNestingDepthIssue (filePath : String) (depth : Nat) : ValidationIssue :=
  mkIssue "CES_GUARDRAIL_NESTING_DEPTH_EXCEEDED"
    ("guardrails/ contains file nested " ++ toString depth ++
      " levels deep; expected max " ++ toString ROOT_DEPTH_LIMIT)
    .warning filePath (some 1)

/-- Per-file body of the `validateNestingDepth` loop. -/
def nestingIssuesForFile (rootPath filePath : String) : List ValidationIssue :=
  match (strSplitOn (toRelativePath rootPath filePath) '/').filter (fun s => s ≠ "") with
  | [] => []
  | [_] => []
  | topLevel :: _ :: _ =>
    if (topLevel = "agents" ∨ topLevel = "tools" ∨ topLevel = "examples") ∧
        getDepthBelowTopLevel (toRelativePath rootPath filePath) > ROOT_DEPTH_LIMIT then
      [nestingDepthIssue filePath topLevel (getDepthBelowTopLevel (toRelativePath rootPath filePath))]
    else if topLevel = "toolsets" ∧
        getDepthBelowTopLevel (toRelativePath rootPath filePath) > TOOLSET_DEPTH_LIMIT then
      [toolsetNestingDepthIssue filePath (getDepthBelowTopLevel (toRelativePath rootPath filePath))]
    else if topLevel = "guardrails" ∧
        getDepthBelowTopLevel (toRelativePath rootPath filePath) > ROOT_DEPTH_LIMIT then
      [guardrailNestingDepthIssue filePath (getDepthBelowTopLevel (toRelativePath rootPath filePath))]
    else []

/-- Models `validateNestingDepth`. -/
def validateNestingDepth (m : PackageModel) : List ValidationIssue :=
  m.files.flatMap (nestingIssuesForFile m.rootPath)

/-- The `CES_EVALUATION_TOOLCALL_OPENAPI_OPERATION` issue. -/
def evalOpenApiIssue (fs : FileSystem) (e : EvaluationInfo) (turnIdx : Nat)
    (toolName : String) : ValidationIssue :=
  mkIssue "CES_EVALUATION_TOOLCALL_OPENAPI_OPERATION"
    ("Evaluation '" ++ e.name ++ "' turn " ++ toString (turnIdx + 1) ++ ": toolCall '" ++
      toolName ++ "' is an OpenAPI operation, not a direct tool. CES will reject this. (Learning L-01)")
    .error e.manifestPath (fs.findLineContaining e.manifestPath toolName)

/-- The `CES_EVALUATION_TOOLCALL_UNKNOWN` issue. -/
def evalUnknownToolIssue (fs : FileSystem) (m : PackageModel) (e : EvaluationInfo)
    (turnIdx : Nat) (toolName : String) : ValidationIssue :=
  mkIssue "CES_EVALUATION_TOOLCALL_UNKNOWN"
    ("Evaluation '" ++ e.name ++ "' turn " ++ toString (turnIdx + 1) ++ ": toolCall '" ++
      toolName ++ "' not found in any agent's tools list. Known tools: [" ++
      strJoinSep ", " (sortStrings m.directTools) ++ "]")
    .error e.manifestPath (fs.findLineContaining e.manifestPath toolName)

/-- Classification of one (non-empty) toolCall expectation name: OpenAPI
operations are rejected first; otherwise an unknown name errors only against a
non-empty direct-tool inventory. -/
def evalToolCallIssues (fs : FileSystem) (m : PackageModel) (e : EvaluationInfo)
    (turnIdx : Nat) (toolName : String) : List ValidationIssue :=
  if m.openApiOperations.contains toolName then
    [evalOpenApiIssue fs e turnIdx toolName]
  else if !m.directTools.isEmpty && !m.directTools.contains toolName then
    [evalUnknownToolIssue fs m e turnIdx toolName]
  else []

/-- One step of one golden turn (`steps[]` loop body). -/
def evaluationStepIssues (fs : FileSystem) (m : PackageModel) (e : EvaluationInfo)
    (turnIdx : Nat) (step : Json) : List ValidationIssue :=
  match optLookup (optLookup (step.lookup "expectation") "toolCall") "tool" with
  | some (.str toolName) =>
    if strTrim toolName = "" then [] else evalToolCallIssues fs m e turnIdx toolName
  | _ => []

/-- One golden turn with its index (`turns[]` loop body). -/
def goldenTurnIssues (fs : FileSystem) (m : PackageModel) (e : EvaluationInfo)
    (p : Nat × Json) : List ValidationIssue :=
  match p.2.lookup "steps" with
  | some (.arr steps) => steps.flatMap (evaluationStepIssues fs m e p.1)
  | _ => []

/-- Per-evaluation issues in `validateEvaluations`. -/
def evaluationIssues (fs : FileSystem) (m : PackageModel) (e : EvaluationInfo) :
    List ValidationIssue :=
  match e.manifestError with
  | some err =>
    [mkIssue "CES_EVALUATION_MANIFEST_INVALID"
      ("Evaluation '" ++ e.name ++ "' manifest error: " ++ err)
      .error e.manifestPath (some 1)]
  | none =>
    (match optLookup e.manifestData "displayName" with
     | some (.str displayName) =>
       if displayName ≠ e.name then
         [mkIssue "CES_EVALUATION_DISPLAYNAME_MISMATCH"
           ("Evaluation displayName '" ++ displayName ++ "' differs from folder name '" ++ e.name ++ "'")
           .warning e.manifestPath (fs.findLineContaining e.manifestPath "displayName")]
       else []
     | _ => []) ++
    (match optLookup (optLookup e.manifestData "golden") "turns" with
     | some (.arr turns) => turns.enum.flatMap (goldenTurnIssues fs m e)
     | _ => [])

/-- Models `validateEvaluations` (the empty-list early return is the empty
flatMap). -/
def validateEvaluations (fs : FileSystem) (m : PackageModel) : List ValidationIssue :=
  m.evaluationInfos.flatMap (evaluationIssues fs m)

/-- The toolset-qualifier part of a call expression (`parts[0]` when the split
has more than one part, else the JavaScript-falsy empty string). -/
def toolCallToolsetName (operation : String) : String :=
  if (strSplitOn operation '.').length > 1 then (strSplitOn operation '.').headD "" else ""

/-- The operation part of a call expression (`parts[1]` when qualified, else
`parts[0]`). -/
def toolCallOpName (operation : String) : String :=
  if (strSplitOn operation '.').length > 1 then (strSplitOn operation '.').getD 1 ""
  else (strSplitOn operation '.').headD ""

/-- One extracted call expression in `validateInstructions` (`toolCalls` loop
body); JavaScript string truthiness on `parts[0]` / `parts[1]` is the
non-emptiness test. -/
def instructionToolCallIssues (m : PackageModel) (info : InstructionInfo)
    (call : InstructionToolCall) : List ValidationIssue :=
  if toolCallToolsetName call.operation ≠ "" then
    if (m.toolsetInfos.map (·.name)).contains (toolCallToolsetName call.operation) then []
    else
      [mkIssue "CES_INSTRUCTION_TOOLCALL_UNKNOWN_TOOLSET"
        ("Instruction for '" ++ info.agentName ++ "': tool_call '" ++ call.operation ++
          "' references unknown toolset '" ++ toolCallToolsetName call.operation ++
          "' at line " ++ toString call.line)
        .warning info.filePath (some call.line)]
  else if toolCallOpName call.operation ≠ "" ∧ !m.directTools.isEmpty ∧
      !m.directTools.contains (toolCallOpName call.operation) then
    [mkIssue "CES_INSTRUCTION_TOOLCALL_UNKNOWN_TOOL"
      ("Instruction for '" ++ info.agentName ++ "': tool_call '" ++ call.operation ++
        "' is not a known direct tool at line " ++ toString call.line)
      .warning info.filePath (some call.line)]
  else []

/-- Per-instruction-file issues in `validateInstructions` (the sentinel global
entry is skipped). -/
def instructionIssues (m : PackageModel) (agentNames : List String)
    (info : InstructionInfo) : List ValidationIssue :=
  if info.agentName = "__global__" then []
  else
    (match info.parseError with
     | some parseError =>
       [mkIssue "CES_INSTRUCTION_PARSE_ERROR"
         ("Instruction parse error for '" ++ info.agentName ++ "': " ++ parseError)
         .error info.filePath (some 1)]
     | none => []) ++
    (REQUIRED_SECTIONS.flatMap (fun required =>
      if (info.sections.map (·.name)).contains required then []
      else
        [mkIssue "CES_INSTRUCTION_MISSING_SECTION"
          ("Instruction for '" ++ info.agentName ++ "' is missing required <" ++ required ++ "> section")
          .warning info.filePath (some 1)])) ++
    (info.references.flatMap (fun ref =>
      if ref.type = .agent ∧ !agentNames.contains ref.name then
        [mkIssue "CES_INSTRUCTION_AGENT_REF_UNKNOWN"
          ("Instruction for '" ++ info.agentName ++ "' references unknown agent '" ++ ref.name ++
            "' at line " ++ toString ref.line)
          .error info.filePath (some ref.line)]
      else [])) ++
    (info.references.flatMap (fun ref =>
      if ref.type = .tool ∧ !m.directTools.isEmpty ∧ !m.directTools.contains ref.name then
        [mkIssue "CES_INSTRUCTION_TOOL_REF_UNKNOWN"
          ("Instruction for '" ++ info.agentName ++ "' references unknown tool '" ++ ref.name ++
            "' at line " ++ toString ref.line)
          .warning info.filePath (some ref.line)]
      else [])) ++
    (info.toolCalls.flatMap (instructionToolCallIssues m info))

/-- Models `validateInstructions`. -/
def validateInstructions (m : PackageModel) : List ValidationIssue :=
  let agentNames := m.agentInfos.map (·.name)
  m.instructionInfos.flatMap (instructionIssues m agentNames)

/-- The `CES_ENVIRONMENT_LOCALHOST_WARNING` issue. -/
def environmentLocalhostIssue (filePath : String) : ValidationIssue :=
  mkIssue "CES_ENVIRONMENT_LOCALHOST_WARNING"
    "environment.json contains localhost or 127.0.0.1 URLs; use deployed endpoints before import"
    .warning filePath (some 1)

/-- One `toolsets` entry of `environment.json` (`Object.entries` loop body). -/
def environmentToolsetEntryIssues (fs : FileSystem) (filePath : String)
    (entry : String × Json) : List ValidationIssue :=
  if !entry.2.isRecord then
    [mkIssue "CES_ENVIRONMENT_TOOLSET_ENTRY_INVALID"
      ("environment.json toolsets." ++ entry.1 ++ " must be an object")
      .error filePath (fs.findLineContaining filePath entry.1)]
  else
    match entry.2.lookup "openApiToolset" with
    | none => []
    | some openApiToolset =>
      if !openApiToolset.isRecord then
        [mkIssue "CES_ENVIRONMENT_OPENAPI_TOOLSET_INVALID"
          ("environment.json toolsets." ++ entry.1 ++ ".openApiToolset must be an object")
          .error filePath (fs.findLineContaining filePath "openApiToolset")]
      else
        match openApiToolset.lookup "url" with
        | none => []
        | some (.str _) => []
        | some _ =>
          [mkIssue "CES_ENVIRONMENT_OPENAPI_URL_INVALID"
            ("environment.json toolsets." ++ entry.1 ++ ".openApiToolset.url must be a string")
            .error filePath (fs.findLineContaining filePath "url")]

/-- Models `validateEnvironment`. -/
def validateEnvironment (fs : FileSystem) (m : PackageModel) : List ValidationIssue :=
  match m.environment with
  | none => []
  | some env =>
    match env.error with
    | some err =>
      [mkIssue "CES_ENVIRONMENT_PARSE_ERROR" ("environment.json parse error: " ++ err)
        .error env.filePath (some 1)]
    | none =>
      match env.data with
      | some envData =>
        if !envData.isRecord then
          [mkIssue "CES_ENVIRONMENT_INVALID_ROOT" "environment.json root must be an object"
            .error env.filePath (some 1)]
        else
          (match envData.lookup "toolsets" with
           | some (.obj toolsetFields) =>
             toolsetFields.flatMap (environmentToolsetEntryIssues fs env.filePath)
           | _ =>
             [mkIssue "CES_ENVIRONMENT_TOOLSETS_INVALID"
               "environment.json must contain a 'toolsets' object"
               .error env.filePath (fs.findLineContaining env.filePath "toolsets")]) ++
          (if containsLocalhostReference envData then [environmentLocalhostIssue env.filePath]
           else [])
      | none =>
        [mkIssue "CES_ENVIRONMENT_INVALID_ROOT" "environment.json root must be an object"
          .error env.filePath (some 1)]

/-- Three-way natural-number comparison (the sign of the comparator's
subtraction `(left.line ?? 1) - (right.line ?? 1)`). -/
def compareNat (a b : Nat) : Ordering :=
  if a < b then .lt else if b < a then .gt else .eq

/-- The issue comparator of `runRules`: by file, then by line (missing = 1),
then by code. -/
def issueCompare (l r : ValidationIssue) : Ordering :=
  match compareStr l.file r.file with
  | .eq =>
    match compareNat (l.line.getD 1) (r.line.getD 1) with
    | .eq => compareStr l.code r.code
    | lineOrder => lineOrder
  | fileOrder => fileOrder

/-- The non-strict order induced by `issueCompare` (a stable JavaScript sort
with comparator `c` sorts by `c(a, b) <= 0`). -/
def issueLE (l r : ValidationIssue) : Bool :=
  match issueCompare l r with
  | .gt => false
  | _ => true

/-- The rule battery of `runRules`, in source order, before sorting. -/
def ruleBattery (fs : FileSystem) (m : PackageModel) : List ValidationIssue :=
  validateManifest fs m ++
  validateUnsupportedDirectories fs m ++
  validateNestingDepth m ++
  validateAgents fs m ++
  validateToolsets fs m ++
  validateEvaluations fs m ++
  validateInstructions m ++
  validateEnvironment fs m

/-- Models `runRules`: run the battery, then sort stably by
(file, line-or-1, code). -/
def runRules (fs : FileSystem) (m : PackageModel) : List ValidationIssue :=
  (ruleBattery fs m).mergeSort issueLE

/-! ## Tool inventory (`packageIndex.buildToolInventory`) -/

/-- The aggregated tool inventory. -/
structure ToolInventory where
  directTools : List String
  openApiOperations : List String
  openApiNamespacedOperations : List String
deriving DecidableEq, Repr

/-- `Set.add`: append when not yet present (JavaScript sets iterate in
insertion order). -/
def addToSet (s : List String) (x : String) : List String :=
  if s.contains x then s else s ++ [x]

/-- One entry of an agent's `tools` array: a non-blank string joins
`directTools`. -/
def addAgentToolStep (acc : List String) (tool : Json) : List String :=
  match tool with
  | .str s => if strTrim s ≠ "" then addToSet acc s else acc
  | _ => acc

/-- One `toolIds` entry of an agent-level toolset reference: a non-blank string
joins `openApiOperations`, and its `toolsetName`-namespaced form joins the
namespaced set when the entry declared a toolset name. -/
def addAgentToolIdStep (toolsetName : String) (inv : ToolInventory) (tid : Json) :
    ToolInventory :=
  match tid with
  | .str s =>
    if strTrim s ≠ "" then
      { inv with
        openApiOperations := addToSet inv.openApiOperations s
        openApiNamespacedOperations :=
          if toolsetName ≠ "" then
            addToSet inv.openApiNamespacedOperations (toolsetName ++ "." ++ s)
          else inv.openApiNamespacedOperations }
    else inv
  | _ => inv

/-- The toolset name string of an agent-level toolset reference
(`typeof entry.toolset === "string" ? entry.toolset : ""`). -/
def agentEntryToolsetName (entry : Json) : String :=
  match entry.lookup "toolset" with
  | some (.str s) => s
  | _ => ""

/-- One entry of an agent's `toolsets` array. -/
def addAgentToolsetEntryStep (inv : ToolInventory) (entry : Json) : ToolInventory :=
  if entry.isRecord then
    match entry.lookup "toolIds" with
    | some (.arr toolIds) =>
      toolIds.foldl (addAgentToolIdStep (agentEntryToolsetName entry)) inv
    | _ => inv
  else inv

/-- The `tools` contribution of one agent. -/
def addAgentDirectTools (inv : ToolInventory) (agent : AgentInfo) : ToolInventory :=
  match optLookup agent.manifestData "tools" with
  | some (.arr tools) =>
    { inv with directTools := tools.foldl addAgentToolStep inv.directTools }
  | _ => inv

/-- One agent of the inventory scan. -/
def addAgentStep (inv : ToolInventory) (agent : AgentInfo) : ToolInventory :=
  if !(optIsRecord agent.manifestData) then inv
  else
    match optLookup agent.manifestData "toolsets" with
    | some (.arr entries) =>
      entries.foldl addAgentToolsetEntryStep (addAgentDirectTools inv agent)
    | _ => addAgentDirectTools inv agent

/-- One `toolIds` entry of a toolset manifest (always namespaced by the folder
name). -/
def addToolsetToolIdStep (toolsetName : String) (inv : ToolInventory) (tid : Json) :
    ToolInventory :=
  match tid with
  | .str s =>
    if strTrim s ≠ "" then
      { inv with
        openApiOperations := addToSet inv.openApiOperations s
        openApiNamespacedOperations :=
          addToSet inv.openApiNamespacedOperations (toolsetName ++ "." ++ s) }
    else inv
  | _ => inv

/-- One toolset of the inventory scan. -/
def addToolsetStep (inv : ToolInventory) (toolset : ToolsetInfo) : ToolInventory :=
  if !(optIsRecord toolset.manifestData) then inv
  else
    match optLookup toolset.manifestData "toolIds" with
    | some (.arr toolIds) => toolIds.foldl (addToolsetToolIdStep toolset.name) inv
    | _ => inv

/-- One script tool of the inventory scan: the folder name is a direct tool. -/
def addPythonToolStep (inv : ToolInventory) (pythonTool : PythonToolInfo) : ToolInventory :=
  { inv with directTools := addToSet inv.directTools pythonTool.name }

/-- Models `buildToolInventory`: agents contribute their `tools` entries to
`directTools` and their toolset references' `toolIds` to the operation sets;
toolset manifests contribute their own `toolIds` (namespaced by folder name);
script-tool folder names are direct tools. -/
def buildToolInventory (agentInfos : List AgentInfo) (toolsetInfos : List ToolsetInfo)
    (pythonToolInfos : List PythonToolInfo) : ToolInventory :=
  pythonToolInfos.foldl addPythonToolStep
    (toolsetInfos.foldl addToolsetStep
      (agentInfos.foldl addAgentStep ⟨[], [], []⟩))

/-! ## Comparator theory

Facts about `charsCompare` / `compareNat` / `issueCompare` needed for the
ordering and stability of `runRules`. -/

theorem charsCompare_self (as : List Char) : charsCompare as as = .eq := by
  induction as with
  | nil => rfl
  | cons a as ih => simp [charsCompare, Nat.lt_irrefl, ih]

theorem eq_of_charsCompare_eq : ∀ {as bs : List Char}, charsCompare as bs = .eq → as = bs := by
  intro as
  induction as with
  | nil =>
    intro bs h
    cases bs with
    | nil => rfl
    | cons b bs => simp [charsCompare] at h
  | cons a as ih =>
    intro bs h
    cases bs with
    | nil => simp [charsCompare] at h
    | cons b bs =>
      simp only [charsCompare] at h
      split at h
      · exact absurd h (by simp)
      · split at h
        · exact absurd h (by simp)
        · rename_i h1 h2
          have h3 : a.toNat = b.toNat := by omega
          have hab : a = b := Char.ext (UInt32.ext h3)
          rw [hab, ih h]

theorem charsCompare_swap : ∀ (as bs : List Char), charsCompare bs as = (charsCompare as bs).swap := by
  intro as
  induction as with
  | nil => intro bs; cases bs <;> rfl
  | cons a as ih =>
    intro bs
    cases bs with
    | nil => rfl
    | cons b bs =>
      simp only [charsCompare]
      by_cases h1 : a.toNat < b.toNat
      · have h2 : ¬ b.toNat < a.toNat := by omega
        simp [h1, h2, Ordering.swap]
      · by_cases h2 : b.toNat < a.toNat
        · simp [h1, h2, Ordering.swap]
        · simp [h1, h2, ih bs]

theorem charsCompare_lt_trans :
    ∀ {as bs cs : List Char}, charsCompare as bs = .lt → charsCompare bs cs = .lt →
      charsCompare as cs = .lt := by
  intro as
  induction as with
  | nil =>
    intro bs cs h1 h2
    cases bs with
    | nil => simp [charsCompare] at h1
    | cons b bs =>
      cases cs with
      | nil => simp [charsCompare] at h2
      | cons c cs => simp [charsCompare]
  | cons a as ih =>
    intro bs cs h1 h2
    cases bs with
    | nil => simp [charsCompare] at h1
    | cons b bs =>
      cases cs with
      | nil => simp [charsCompare] at h2
      | cons c cs =>
        simp only [charsCompare] at h1 h2 ⊢
        by_cases hab : a.toNat < b.toNat <;> by_cases hbc : b.toNat < c.toNat
        · have hac : a.toNat < c.toNat := by omega
          simp [hac]
        · simp only [if_neg hbc] at h2
          by_cases hcb : c.toNat < b.toNat
          · simp [hcb] at h2
          · have hac : a.toNat < c.toNat := by omega
            simp [hac]
        · simp only [if_neg hab] at h1
          by_cases hba : b.toNat < a.toNat
          · simp [hba] at h1
          · have hac : a.toNat < c.toNat := by omega
            simp [hac]
        · simp only [if_neg hab] at h1
          simp only [if_neg hbc] at h2
          by_cases hba : b.toNat < a.toNat
          · simp [hba] at h1
          · by_cases hcb : c.toNat < b.toNat
            · simp [hcb] at h2
            · simp only [if_neg hba] at h1
              simp only [if_neg hcb] at h2
              have h3 : ¬ a.toNat < c.toNat := by omega
              have h4 : ¬ c.toNat < a.toNat := by omega
              simp only [if_neg h3, if_neg h4]
              exact ih h1 h2

theorem compareStr_self (s : String) : compareStr s s = .eq := charsCompare_self _

theorem compareStr_eq_iff {a b : String} : compareStr a b = .eq ↔ a = b := by
  constructor
  · intro h
    cases a with
    | mk da =>
      cases b with
      | mk db =>
        have h2 : da = db := eq_of_charsCompare_eq h
        rw [h2]
  · rintro rfl
    exact compareStr_self a

theorem compareStr_swap (a b : String) : compareStr b a = (compareStr a b).swap :=
  charsCompare_swap _ _

theorem compareStr_lt_trans {a b c : String} (h1 : compareStr a b = .lt)
    (h2 : compareStr b c = .lt) : compareStr a c = .lt :=
  charsCompare_lt_trans h1 h2

theorem compareStr_le_trans {a b c : String} (h1 : compareStr a b ≠ .gt)
    (h2 : compareStr b c ≠ .gt) : compareStr a c ≠ .gt := by
  cases hab : compareStr a b with
  | gt => exact absurd hab h1
  | eq =>
    rw [compareStr_eq_iff.mp hab]
    exact h2
  | lt =>
    cases hbc : compareStr b c with
    | gt => exact absurd hbc h2
    | eq =>
      rw [← compareStr_eq_iff.mp hbc]
      simp [hab]
    | lt => simp [compareStr_lt_trans hab hbc]

theorem compareNat_eq_iff {a b : Nat} : compareNat a b = .eq ↔ a = b := by
  unfold compareNat
  split
  · simp; omega
  · split
    · simp; omega
    · simp; omega

theorem compareNat_lt_iff {a b : Nat} : compareNat a b = .lt ↔ a < b := by
  unfold compareNat
  split
  · simp; omega
  · split <;> simp <;> omega

theorem compareNat_swap (a b : Nat) : compareNat b a = (compareNat a b).swap := by
  unfold compareNat
  by_cases h1 : a < b
  · have h2 : ¬ b < a := by omega
    simp [h1, h2, Ordering.swap]
  · by_cases h2 : b < a
    · simp [h1, h2, Ordering.swap]
    · simp [h1, h2, Ordering.swap]

/-- The sort key of `runRules`: file path, line number defaulting to 1, code. -/
def issueKey (i : ValidationIssue) : String × Nat × String :=
  (i.file, i.line.getD 1, i.code)

/-- Lexicographic order on issue keys: by file (in the modelled `localeCompare`
order), then by line-or-1, then by code. -/
def IssueKeyLE (a b : ValidationIssue) : Prop :=
  compareStr a.file b.file = .lt ∨
    (a.file = b.file ∧
      (a.line.getD 1 < b.line.getD 1 ∨
        (a.line.getD 1 = b.line.getD 1 ∧ compareStr a.code b.code ≠ .gt)))

theorem issueLE_iff {a b : ValidationIssue} : issueLE a b = true ↔ IssueKeyLE a b := by
  unfold issueLE issueCompare IssueKeyLE
  cases hf : compareStr a.file b.file with
  | lt => simp [hf]
  | gt =>
    have hne : a.file ≠ b.file := by
      intro he
      rw [he, compareStr_self] at hf
      cases hf
    simp only [hf]
    constructor
    · intro h; exact absurd h (by simp)
    · rintro (h | ⟨he, _⟩)
      · simp at h
      · exact absurd he hne
  | eq =>
    have hfe : a.file = b.file := compareStr_eq_iff.mp hf
    cases hl : compareNat (a.line.getD 1) (b.line.getD 1) with
    | lt =>
      have := compareNat_lt_iff.mp hl
      simp [hf, hl, hfe, this]
    | gt =>
      have h1 : ¬ a.line.getD 1 < b.line.getD 1 := by
        intro hlt
        rw [compareNat_lt_iff.mpr hlt] at hl
        exact absurd hl (by simp)
      have h2 : a.line.getD 1 ≠ b.line.getD 1 := by
        intro heq
        rw [compareNat_eq_iff.mpr heq] at hl
        exact absurd hl (by simp)
      simp [hf, hl, hfe, h1, h2]
    | eq =>
      have hle := compareNat_eq_iff.mp hl
      cases hc : compareStr a.code b.code <;> simp [hf, hl, hfe, hle, hc]

theorem issueLE_trans (a b c : ValidationIssue) :
    issueLE a b → issueLE b c → issueLE a c := by
  intro h1 h2
  rw [issueLE_iff] at h1 h2 ⊢
  rcases h1 with h1 | ⟨hf1, h1⟩
  · rcases h2 with h2 | ⟨hf2, _⟩
    · exact Or.inl (compareStr_lt_trans h1 h2)
    · exact Or.inl (hf2 ▸ h1)
  · rcases h2 with h2 | ⟨hf2, h2⟩
    · exact Or.inl (hf1 ▸ h2)
    · refine Or.inr ⟨hf1.trans hf2, ?_⟩
      rcases h1 with h1 | ⟨hl1, h1⟩
      · rcases h2 with h2 | ⟨hl2, _⟩
        · exact Or.inl (h1.trans h2)
        · exact Or.inl (hl2 ▸ h1)
      · rcases h2 with h2 | ⟨hl2, h2⟩
        · exact Or.inl (hl1 ▸ h2)
        · exact Or.inr ⟨hl1.trans hl2, compareStr_le_trans h1 h2⟩

theorem issueLE_total (a b : ValidationIssue) : issueLE a b || issueLE b a := by
  unfold issueLE issueCompare
  rw [compareStr_swap a.file b.file, compareNat_swap (a.line.getD 1) (b.line.getD 1),
    compareStr_swap a.code b.code]
  cases compareStr a.file b.file <;>
    cases compareNat (a.line.getD 1) (b.line.getD 1) <;>
      cases compareStr a.code b.code <;> rfl

theorem issueLE_of_key_eq {a b : ValidationIssue} (h : issueKey a = issueKey b) :
    issueLE a b = true := by
  unfold issueKey at h
  obtain ⟨h1, h2, h3⟩ : a.file = b.file ∧ a.line.getD 1 = b.line.getD 1 ∧ a.code = b.code := by
    constructor
    · exact congrArg Prod.fst h
    constructor
    · exact congrArg (fun p => p.2.1) h
    · exact congrArg (fun p => p.2.2) h
  rw [issueLE_iff]
  exact Or.inr ⟨h1, Or.inr ⟨h2, by rw [h3, compareStr_self]; simp⟩⟩

/-! ## Bridges between `runRules` and the unsorted battery -/

theorem mem_runRules {fs : FileSystem} {m : PackageModel} {i : ValidationIssue} :
    i ∈ runRules fs m ↔ i ∈ ruleBattery fs m := by
  unfold runRules
  exact List.mem_mergeSort

theorem countP_runRules (fs : FileSystem) (m : PackageModel) (p : ValidationIssue → Bool) :
    (runRules fs m).countP p = (ruleBattery fs m).countP p :=
  (List.mergeSort_perm (ruleBattery fs m) issueLE).countP_eq p

/-! ## Tool-inventory lemmas (for the disjointness question) -/

theorem foldl_pred_preserve {α β : Type} {P : β → Prop} {step : β → α → β}
    (mono : ∀ inv x, P inv → P (step inv x)) :
    ∀ (l : List α) (inv : β), P inv → P (l.foldl step inv) := by
  intro l
  induction l with
  | nil => intro inv h; exact h
  | cons x xs ih => intro inv h; exact ih _ (mono inv x h)

theorem foldl_pred_of_mem {α β : Type} {P : β → Prop} {step : β → α → β} {a : α}
    (mono : ∀ inv x, P inv → P (step inv x))
    (hintro : ∀ inv, P (step inv a)) :
    ∀ (l : List α) (inv : β), a ∈ l → P (l.foldl step inv) := by
  intro l
  induction l with
  | nil => intro inv h; cases h
  | cons x xs ih =>
    intro inv h
    rcases List.mem_cons.mp h with rfl | h
    · exact foldl_pred_preserve mono xs _ (hintro inv)
    · exact ih _ h

theorem contains_addToSet_self (s : List String) (x : String) :
    (addToSet s x).contains x = true := by
  unfold addToSet
  split
  · assumption
  · simp

theorem contains_addToSet_of {s : List String} {y : String} (x : String)
    (h : s.contains y = true) : (addToSet s x).contains y = true := by
  unfold addToSet
  split
  · exact h
  · simp only [List.contains_eq_any_beq, List.any_append, List.any_cons, List.any_nil,
      Bool.or_eq_true] at h ⊢
    exact Or.inl h

theorem optIsRecord_of_optLookup {o : Option Json} {k : String} {v : Json}
    (h : optLookup o k = some v) : optIsRecord o = true := by
  cases o with
  | none => simp [optLookup] at h
  | some j =>
    cases j <;> simp [optLookup, Json.lookup, optIsRecord, Json.isRecord] at h ⊢

theorem addAgentToolIdStep_directTools (tn : String) (inv : ToolInventory) (tid : Json) :
    (addAgentToolIdStep tn inv tid).directTools = inv.directTools := by
  cases tid <;> first
    | rfl
    | (simp only [addAgentToolIdStep]; split <;> rfl)

theorem addAgentToolsetEntryStep_directTools (inv : ToolInventory) (entry : Json) :
    (addAgentToolsetEntryStep inv entry).directTools = inv.directTools := by
  unfold addAgentToolsetEntryStep
  split
  · split
    · apply foldl_pred_preserve (P := fun i : ToolInventory => i.directTools = inv.directTools)
      · intro i t h
        rw [addAgentToolIdStep_directTools, h]
      · rfl
    · rfl
  · rfl

theorem addToolsetToolIdStep_directTools (tn : String) (inv : ToolInventory) (tid : Json) :
    (addToolsetToolIdStep tn inv tid).directTools = inv.directTools := by
  cases tid <;> first
    | rfl
    | (simp only [addToolsetToolIdStep]; split <;> rfl)

theorem addToolsetStep_directTools (inv : ToolInventory) (toolset : ToolsetInfo) :
    (addToolsetStep inv toolset).directTools = inv.directTools := by
  unfold addToolsetStep
  split
  · rfl
  · split
    · apply foldl_pred_preserve (P := fun i : ToolInventory => i.directTools = inv.directTools)
      · intro i t h
        rw [addToolsetToolIdStep_directTools, h]
      · rfl
    · rfl

theorem addPythonToolStep_openApi (inv : ToolInventory) (p : PythonToolInfo) :
    (addPythonToolStep inv p).openApiOperations = inv.openApiOperations := rfl

theorem dT_mono_addAgentToolStep {name : String} (acc : List String) (tool : Json)
    (h : acc.contains name = true) : (addAgentToolStep acc tool).contains name = true := by
  cases tool <;> first
    | exact h
    | (simp only [addAgentToolStep]
       split
       · exact contains_addToSet_of _ h
       · exact h)

theorem dT_mono_addAgentDirectTools {name : String} (inv : ToolInventory) (agent : AgentInfo)
    (h : inv.directTools.contains name = true) :
    (addAgentDirectTools inv agent).directTools.contains name = true := by
  unfold addAgentDirectTools
  split
  · apply foldl_pred_preserve (P := fun acc : List String => acc.contains name = true)
    · intro acc t hi
      exact dT_mono_addAgentToolStep acc t hi
    · exact h
  · exact h

theorem dT_mono_addAgentStep {name : String} (inv : ToolInventory) (agent : AgentInfo)
    (h : inv.directTools.contains name = true) :
    (addAgentStep inv agent).directTools.contains name = true := by
  unfold addAgentStep
  split
  · exact h
  · split
    · apply foldl_pred_preserve (P := fun i : ToolInventory => i.directTools.contains name = true)
      · intro i e hi
        rw [addAgentToolsetEntryStep_directTools]
        exact hi
      · exact dT_mono_addAgentDirectTools inv agent h
    · exact dT_mono_addAgentDirectTools inv agent h

theorem oA_mono_addAgentToolIdStep {name : String} (tn : String) (inv : ToolInventory)
    (tid : Json) (h : inv.openApiOperations.contains name = true) :
    (addAgentToolIdStep tn inv tid).openApiOperations.contains name = true := by
  cases tid <;> first
    | exact h
    | (simp only [addAgentToolIdStep]
       split
       · exact contains_addToSet_of _ h
       · exact h)

theorem oA_mono_addAgentToolsetEntryStep {name : String} (inv : ToolInventory) (entry : Json)
    (h : inv.openApiOperations.contains name = true) :
    (addAgentToolsetEntryStep inv entry).openApiOperations.contains name = true := by
  unfold addAgentToolsetEntryStep
  split
  · split
    · apply foldl_pred_preserve
        (P := fun i : ToolInventory => i.openApiOperations.contains name = true)
      · intro i t hi
        exact oA_mono_addAgentToolIdStep _ i t hi
      · exact h
    · exact h
  · exact h

theorem oA_mono_addAgentDirectTools {name : String} (inv : ToolInventory) (agent : AgentInfo)
    (h : inv.openApiOperations.contains name = true) :
    (addAgentDirectTools inv agent).openApiOperations.contains name = true := by
  unfold addAgentDirectTools
  split
  · exact h
  · exact h

theorem oA_mono_addAgentStep {name : String} (inv : ToolInventory) (agent : AgentInfo)
    (h : inv.openApiOperations.contains name = true) :
    (addAgentStep inv agent).openApiOperations.contains name = true := by
  unfold addAgentStep
  split
  · exact h
  · split
    · apply foldl_pred_preserve
        (P := fun i : ToolInventory => i.openApiOperations.contains name = true)
      · intro i e hi
        exact oA_mono_addAgentToolsetEntryStep i e hi
      · exact oA_mono_addAgentDirectTools inv agent h
    · exact oA_mono_addAgentDirectTools inv agent h

theorem oA_mono_addToolsetToolIdStep {name : String} (tn : String) (inv : ToolInventory)
    (tid : Json) (h : inv.openApiOperations.contains name = true) :
    (addToolsetToolIdStep tn inv tid).openApiOperations.contains name = true := by
  cases tid <;> first
    | exact h
    | (simp only [addToolsetToolIdStep]
       split
       · exact contains_addToSet_of _ h
       · exact h)

theorem oA_mono_addToolsetStep {name : String} (inv : ToolInventory) (toolset : ToolsetInfo)
    (h : inv.openApiOperations.contains name = true) :
    (addToolsetStep inv toolset).openApiOperations.contains name = true := by
  unfold addToolsetStep
  split
  · exact h
  · split
    · apply foldl_pred_preserve
        (P := fun i : ToolInventory => i.openApiOperations.contains name = true)
      · intro i t hi
        exact oA_mono_addToolsetToolIdStep _ i t hi
      · exact h
    · exact h

theorem dT_intro_addAgentDirectTools {name : String} {a : AgentInfo} {tools : List Json}
    (hat : optLookup a.manifestData "tools" = some (.arr tools))
    (hmem : Json.str name ∈ tools) (hne : strTrim name ≠ "") (inv : ToolInventory) :
    (addAgentDirectTools inv a).directTools.contains name = true := by
  unfold addAgentDirectTools
  rw [hat]
  apply foldl_pred_of_mem (P := fun acc : List String => acc.contains name = true)
    (a := Json.str name)
  · intro acc t hi
    exact dT_mono_addAgentToolStep acc t hi
  · intro acc
    simp only [addAgentToolStep]
    rw [if_pos hne]
    exact contains_addToSet_self acc name
  · exact hmem

/-- C2 (amended): `buildToolInventory` enforces no disjointness between
`directTools` and `openApiOperations`: a non-blank name listed in some agent's
`tools` array and also in some toolset manifest's `toolIds` array is a member
of both sets. -/
theorem ces_c2 (agentInfos : List AgentInfo) (toolsetInfos : List ToolsetInfo)
    (pythonToolInfos : List PythonToolInfo) (name : String) (a : AgentInfo) (t : ToolsetInfo)
    (tools toolIds : List Json)
    (ha : a ∈ agentInfos)
    (hat : optLookup a.manifestData "tools" = some (.arr tools))
    (hmem : Json.str name ∈ tools)
    (hne : strTrim name ≠ "")
    (ht : t ∈ toolsetInfos)
    (htt : optLookup t.manifestData "toolIds" = some (.arr toolIds))
    (hmem2 : Json.str name ∈ toolIds) :
    (buildToolInventory agentInfos toolsetInfos pythonToolInfos).directTools.contains name = true ∧
    (buildToolInventory agentInfos toolsetInfos pythonToolInfos).openApiOperations.contains name = true := by
  unfold buildToolInventory
  constructor
  · apply foldl_pred_preserve (P := fun i : ToolInventory => i.directTools.contains name = true)
    · intro i p hi
      exact contains_addToSet_of p.name hi
    · apply foldl_pred_preserve (P := fun i : ToolInventory => i.directTools.contains name = true)
      · intro i ts hi
        rw [addToolsetStep_directTools]
        exact hi
      · apply foldl_pred_of_mem (P := fun i : ToolInventory => i.directTools.contains name = true)
          (a := a)
        · intro i ag hi
          exact dT_mono_addAgentStep i ag hi
        · intro inv
          unfold addAgentStep
          rw [optIsRecord_of_optLookup hat]
          simp only [Bool.not_true, Bool.false_eq_true, if_false]
          split
          · apply foldl_pred_preserve
              (P := fun i : ToolInventory => i.directTools.contains name = true)
            · intro i e hi
              rw [addAgentToolsetEntryStep_directTools]
              exact hi
            · exact dT_intro_addAgentDirectTools hat hmem hne inv
          · exact dT_intro_addAgentDirectTools hat hmem hne inv
        · exact ha
  · apply foldl_pred_preserve
      (P := fun i : ToolInventory => i.openApiOperations.contains name = true)
    · intro i p hi
      rw [addPythonToolStep_openApi]
      exact hi
    · apply foldl_pred_of_mem
        (P := fun i : ToolInventory => i.openApiOperations.contains name = true) (a := t)
      · intro i ts hi
        exact oA_mono_addToolsetStep i ts hi
      · intro inv
        unfold addToolsetStep
        rw [optIsRecord_of_optLookup htt]
        simp only [Bool.not_true, Bool.false_eq_true, if_false]
        rw [htt]
        apply foldl_pred_of_mem
          (P := fun i : ToolInventory => i.openApiOperations.contains name = true)
          (a := Json.str name)
        · intro i tid hi
          exact oA_mono_addToolsetToolIdStep _ i tid hi
        · intro i
          simp only [addToolsetToolIdStep]
          rw [if_pos hne]
          exact contains_addToSet_self _ name
        · exact hmem2
      · exact ht

/-- Agent fixture for the inventory-overlap counterexample: its `tools` array
declares `foo`. -/
def agentC2 : AgentInfo :=
  { name := "assistant"
    dirPath := "pkg/agents/assistant"
    manifestPath := "pkg/agents/assistant/assistant.json"
    manifestData := some (.obj [("tools", .arr [.str "foo"])])
    manifestError := none }

/-- Toolset fixture for the inventory-overlap counterexample: its `toolIds`
array also declares `foo`. -/
def toolsetC2 : ToolsetInfo :=
  { name := "api"
    dirPath := "pkg/toolsets/api"
    manifestPath := "pkg/toolsets/api/api.json"
    manifestData := some (.obj [("toolIds", .arr [.str "foo"])])
    manifestError := none
    openApiDirPath := "pkg/toolsets/api/open_api_toolset"
    autoDetectedSchemaPath := none }

/-- C2 counterexample: the two inventory sets both contain `foo` for a
reachable pair of parsed manifests, so they are not disjoint. -/
theorem ces_c2_counterexample :
    (buildToolInventory [agentC2] [toolsetC2] []).directTools.contains "foo" = true ∧
    (buildToolInventory [agentC2] [toolsetC2] []).openApiOperations.contains "foo" = true := by
  decide

/-- C2 witness: the amended theorem applied at the concrete fixtures. -/
theorem ces_c2_witness :
    (buildToolInventory [agentC2] [toolsetC2] []).directTools.contains "foo" = true ∧
    (buildToolInventory [agentC2] [toolsetC2] []).openApiOperations.contains "foo" = true :=
  ces_c2 [agentC2] [toolsetC2] [] "foo" agentC2 toolsetC2 [.str "foo"] [.str "foo"]
    (List.mem_singleton.mpr rfl) rfl (List.mem_singleton.mpr rfl) (by decide)
    (List.mem_singleton.mpr rfl) rfl (List.mem_singleton.mpr rfl)

/-! ## Substring and parser lemmas (for the instruction-markup claims) -/

theorem substrOccursIn_of_isPrefixOf {n hay : List Char} (h : n.isPrefixOf hay = true) :
    substrOccursIn n hay = true := by
  cases hay with
  | nil =>
    cases n with
    | nil => rfl
    | cons c cs => simp [List.isPrefixOf] at h
  | cons c rest => simp [substrOccursIn, h]

theorem substrOccursIn_append_right (n s t : List Char) (h : substrOccursIn n t = true) :
    substrOccursIn n (s ++ t) = true := by
  induction s with
  | nil => simpa using h
  | cons c cs ih =>
    simp only [List.cons_append, substrOccursIn, Bool.or_eq_true]
    exact Or.inr ih

theorem substrOccursIn_append_left (n s t : List Char) (h : substrOccursIn n s = true) :
    substrOccursIn n (s ++ t) = true := by
  induction s with
  | nil =>
    cases n with
    | nil =>
      cases t with
      | nil => rfl
      | cons c cs => simp [substrOccursIn, List.isPrefixOf]
    | cons c cs => simp [substrOccursIn, List.isEmpty] at h
  | cons c cs ih =>
    simp only [substrOccursIn, Bool.or_eq_true] at h
    simp only [List.cons_append, substrOccursIn, Bool.or_eq_true]
    rcases h with h | h
    · refine Or.inl ?_
      rw [List.isPrefixOf_iff_prefix] at h ⊢
      exact h.trans (List.prefix_append (c :: cs) t)
    · exact Or.inr (ih h)

theorem substr_strJoinSep {x : String} (sep : String) :
    ∀ {l : List String}, x ∈ l →
      substrOccursIn (chars x) (chars (strJoinSep sep l)) = true := by
  intro l
  induction l with
  | nil => intro h; cases h
  | cons y ys ih =>
    intro h
    rcases List.mem_cons.mp h with rfl | h
    · cases ys with
      | nil =>
        exact substrOccursIn_of_isPrefixOf (List.isPrefixOf_iff_prefix.mpr (List.prefix_refl _))
      | cons z zs =>
        show substrOccursIn (chars x) (chars (x ++ sep ++ strJoinSep sep (z :: zs))) = true
        have hc : chars (x ++ sep ++ strJoinSep sep (z :: zs)) =
            chars x ++ (chars sep ++ chars (strJoinSep sep (z :: zs))) := by
          simp [chars, String.data_append]
        rw [hc]
        exact substrOccursIn_of_isPrefixOf
          (List.isPrefixOf_iff_prefix.mpr (List.prefix_append _ _))
    · cases ys with
      | nil => cases h
      | cons z zs =>
        show substrOccursIn (chars x) (chars (y ++ sep ++ strJoinSep sep (z :: zs))) = true
        have hc : chars (y ++ sep ++ strJoinSep sep (z :: zs)) =
            (chars y ++ chars sep) ++ chars (strJoinSep sep (z :: zs)) := by
          simp [chars, String.data_append]
        rw [hc]
        exact substrOccursIn_append_right _ _ _ (ih h)

theorem substr_unclosedMessage {o : OpenSection} {stack : List OpenSection} (h : o ∈ stack) :
    substrOccursIn (chars ("<" ++ o.name ++ "> at line " ++ toString o.startLine))
      (chars (unclosedSectionsMessage stack)) = true := by
  have hmem : ("<" ++ o.name ++ "> at line " ++ toString o.startLine) ∈
      (stack.reverse.map (fun s => "<" ++ s.name ++ "> at line " ++ toString s.startLine)) :=
    List.mem_map_of_mem _ (List.mem_reverse.mpr h)
  have hj := substr_strJoinSep (x := "<" ++ o.name ++ "> at line " ++ toString o.startLine)
    ", " hmem
  have hc : chars (unclosedSectionsMessage stack) =
      chars ("Unclosed section(s): " : String) ++
        chars (strJoinSep ", "
          (stack.reverse.map (fun s => "<" ++ s.name ++ "> at line " ++ toString s.startLine))) := by
    simp [unclosedSectionsMessage, chars, String.data_append]
  rw [hc]
  exact substrOccursIn_append_right _ _ _ hj

theorem findCloseTagIn_isSome_of_substr :
    ∀ {cs : List Char}, substrOccursIn (chars "</role>") cs = true →
      (findCloseTagIn cs).isSome = true := by
  intro cs
  induction cs with
  | nil => intro h; exact absurd h (by decide)
  | cons c rest ih =>
    intro h
    simp only [substrOccursIn, Bool.or_eq_true] at h
    rcases h with h | h
    · have hfind : (knownSectionNames.find?
          (fun name => (chars ("</" ++ name ++ ">")).isPrefixOf (c :: rest))).isSome = true := by
        apply List.find?_isSome.mpr
        refine ⟨"role", by decide, ?_⟩
        exact h
      simp only [findCloseTagIn]
      rcases Option.isSome_iff_exists.mp hfind with ⟨name, hv⟩
      rw [hv]
      rfl
    · simp only [findCloseTagIn]
      rcases hfind : knownSectionNames.find?
          (fun name => (chars ("</" ++ name ++ ">")).isPrefixOf (c :: rest)) with _ | name
      · exact ih h
      · rfl

/-- C4: parseInstructionFile reports a defined parseError if and only if at
least one section is still open at end of input, and the single aggregated
message names every unclosed tag with its opening line; in particular a file
with an unclosed role tag yields that error naming the tag and line 1, while
the same file with a matching closer yields none. -/
theorem ces_c4 (content : String) :
    ((parseInstructionFile content).parseError.isSome ↔
      (parseInstructionFile content).openSections ≠ []) ∧
    ((parseInstructionFile content).openSections ≠ [] →
      (parseInstructionFile content).parseError =
        some (unclosedSectionsMessage (parseInstructionFile content).openSections)) ∧
    (∀ o ∈ (parseInstructionFile content).openSections, ∀ msg,
      (parseInstructionFile content).parseError = some msg →
      substrOccursIn (chars ("<" ++ o.name ++ "> at line " ++ toString o.startLine))
        (chars msg) = true) ∧
    (parseInstructionFile "<role>\ninstruction text").parseError =
      some "Unclosed section(s): <role> at line 1" ∧
    (parseInstructionFile "<role>\ninstruction text\n</role>").parseError = none := by
  refine ⟨?_, ?_, ?_, by decide, by decide⟩
  · simp only [parseInstructionFile]
    split
    · rename_i h
      rw [List.isEmpty_iff] at h
      simp [h]
    · rename_i h
      rw [List.isEmpty_iff] at h
      simp [h]
  · simp only [parseInstructionFile]
    split
    · rename_i h
      rw [List.isEmpty_iff] at h
      intro hne
      exact absurd h hne
    · intro _
      rfl
  · intro o ho msg hmsg
    simp only [parseInstructionFile] at ho hmsg
    split at hmsg
    · cases hmsg
    · injection hmsg with h
      rw [← h]
      exact substr_unclosedMessage ho

/-- C4 witness: the general theorem applied at the unclosed-role file, naming
the role tag inside the aggregated message. -/
theorem ces_c4_witness :
    substrOccursIn (chars ("<" ++ "role" ++ "> at line " ++ toString (1 : Nat)))
      (chars "Unclosed section(s): <role> at line 1") = true :=
  (ces_c4 "<role>\ninstruction text").2.2.1 ⟨"role", 1⟩ (by decide)
    "Unclosed section(s): <role> at line 1" (by decide)

/-- C9: a closing tag with no currently-open section of that name is silently
ignored: the per-line step leaves the state unchanged (no emitted section, no
stack change), and a file consisting only of such a stray closer parses with
empty sections and no parseError. -/
theorem ces_c9 (st : InstrParseState) (lineNumber : Nat) (line : String) (closeName : String)
    (hopen : matchOpenTag (strTrim line) = none)
    (hclose : matchCloseTag (strTrim line) = some closeName)
    (hpop : popLastOpenSection st.openSections closeName = none) :
    processLine st lineNumber line = st ∧
    parseInstructionFile "</role>" = ⟨[], [], none⟩ := by
  constructor
  · simp [processLine, hopen, hclose, hpop]
  · decide

/-- C9 witness: the theorem applied to a lone stray closer. -/
theorem ces_c9_witness :
    processLine ⟨[], []⟩ 1 "</role>" = (⟨[], []⟩ : InstrParseState) ∧
    parseInstructionFile "</role>" = ⟨[], [], none⟩ :=
  ces_c9 ⟨[], []⟩ 1 "</role>" "role" (by decide) (by decide) (by decide)

/-- C10: an opening section tag is recognized only as a prefix of the trimmed
line, while a closing tag is recognized anywhere within it: a recognized open
tag starts the (lowercased) trimmed line; a line whose lowercase form contains
a role closer anywhere is recognized as closing; the line with leading text
before an opening role tag opens nothing; the same line with a closer closes a
currently-open role section. -/
theorem ces_c10 (t : String) (name : String) (st : InstrParseState) (k lineNumber : Nat)
    (rest : List OpenSection) :
    (matchOpenTag t = some name → strStartsWith (strToLower t) ("<" ++ name ++ ">") = true) ∧
    (substrOccursIn (chars "</role>") (chars (strToLower t)) = true →
      (matchCloseTag t).isSome = true) ∧
    processLine st lineNumber "text <role>" = st ∧
    (st.openSections = ⟨"role", k⟩ :: rest →
      processLine st lineNumber "text </role>" =
        ⟨st.sections ++ [⟨"role", k, lineNumber⟩], rest⟩) := by
  refine ⟨?_, ?_, ?_, ?_⟩
  · intro h
    unfold matchOpenTag at h
    exact @List.find?_some String
      (fun nm => strStartsWith (strToLower t) ("<" ++ nm ++ ">")) name knownSectionNames h
  · intro h
    exact findCloseTagIn_isSome_of_substr h
  · have h1 : matchOpenTag (strTrim "text <role>") = none := by decide
    have h2 : matchCloseTag (strTrim "text <role>") = none := by decide
    simp [processLine, h1, h2]
  · intro hst
    have h1 : matchOpenTag (strTrim "text </role>") = none := by decide
    have h2 : matchCloseTag (strTrim "text </role>") = some "role" := by decide
    simp [processLine, h1, h2, hst, popLastOpenSection]

/-- C10 witness: the theorem applied at an opening tag line and at a
stray-text closing line over an open role section. -/
theorem ces_c10_witness :
    strStartsWith (strToLower "<role>") ("<" ++ "role" ++ ">") = true ∧
    processLine ⟨[], [⟨"role", 1⟩]⟩ 2 "text </role>" = ⟨[] ++ [⟨"role", 1, 2⟩], []⟩ := by
  have h := ces_c10 "<role>" "role" ⟨[], [⟨"role", 1⟩]⟩ 1 2 []
  exact ⟨h.1 (by decide), h.2.2.2 rfl⟩

/-! ## Issue-code classification

Each rule function can only emit issues from a fixed code set; these lemmas
localize a code to the one rule that owns it. -/

/-- The three nesting-depth warning codes. -/
def nestingCodes : List String :=
  ["CES_NESTING_DEPTH_EXCEEDED", "CES_TOOLSET_NESTING_DEPTH_EXCEEDED",
   "CES_GUARDRAIL_NESTING_DEPTH_EXCEEDED"]

/-- Codes of `validateManifest` (with its reference sub-checks). -/
def manifestCodes : List String :=
  ["CES_MANIFEST_MISSING", "CES_MANIFEST_BOTH_PRESENT", "CES_APP_JSON_ONLY",
   "CES_MANIFEST_PARSE_ERROR", "CES_MANIFEST_INVALID_ROOT", "CES_ROOT_AGENT_MISSING",
   "CES_ROOT_AGENT_DIR_MISSING", "CES_ROOT_AGENT_MANIFEST_MISSING",
   "CES_GLOBAL_INSTRUCTION_MISSING", "CES_GUARDRAIL_REFERENCE_MISSING",
   "CES_GUARDRAIL_JSON_INVALID", "CES_GUARDRAIL_DISPLAYNAME_MISMATCH"]

/-- Codes of `validateAgents`. -/
def agentCodes : List String :=
  ["CES_AGENT_MANIFEST_INVALID", "CES_AGENT_INSTRUCTION_MISSING",
   "CES_AGENT_INSTRUCTION_PATH_MISMATCH", "CES_AGENT_INSTRUCTION_FILE_MISSING",
   "CES_CHILD_AGENT_MISSING", "CES_AGENT_TOOLSET_REFERENCE_MISSING"]

/-- Codes of `validateToolsets`. -/
def toolsetCodes : List String :=
  ["CES_TOOLSET_MANIFEST_INVALID", "CES_OPENAPI_SCHEMA_MISSING",
   "CES_OPENAPI_SCHEMA_NOT_FOUND", "CES_OPENAPI_PARSE_ERROR", "CES_OPENAPI_INVALID_ROOT",
   "CES_OPENAPI_VERSION_MISSING"]

/-- Codes of `validateEvaluations`. -/
def evaluationCodes : List String :=
  ["CES_EVALUATION_MANIFEST_INVALID", "CES_EVALUATION_DISPLAYNAME_MISMATCH",
   "CES_EVALUATION_TOOLCALL_OPENAPI_OPERATION", "CES_EVALUATION_TOOLCALL_UNKNOWN"]

/-- Codes of `validateInstructions`. -/
def instructionCodes : List String :=
  ["CES_INSTRUCTION_PARSE_ERROR", "CES_INSTRUCTION_MISSING_SECTION",
   "CES_INSTRUCTION_AGENT_REF_UNKNOWN", "CES_INSTRUCTION_TOOL_REF_UNKNOWN",
   "CES_INSTRUCTION_TOOLCALL_UNKNOWN_TOOLSET", "CES_INSTRUCTION_TOOLCALL_UNKNOWN_TOOL"]

/-- Codes of `validateEnvironment`. -/
def environmentCodes : List String :=
  ["CES_ENVIRONMENT_PARSE_ERROR", "CES_ENVIRONMENT_INVALID_ROOT",
   "CES_ENVIRONMENT_TOOLSETS_INVALID", "CES_ENVIRONMENT_TOOLSET_ENTRY_INVALID",
   "CES_ENVIRONMENT_OPENAPI_TOOLSET_INVALID", "CES_ENVIRONMENT_OPENAPI_URL_INVALID",
   "CES_ENVIRONMENT_LOCALHOST_WARNING"]

theorem codes_flatMap {α : Type} {f : α → List ValidationIssue} {l : List α} {S : List String}
    (hf : ∀ x ∈ l, ∀ i ∈ f x, i.code ∈ S) : ∀ i ∈ l.flatMap f, i.code ∈ S := by
  intro i h
  rcases List.mem_flatMap.mp h with ⟨x, hx, hi⟩
  exact hf x hx i hi

theorem codes_validateRootAgentReference (fs : FileSystem) (m : PackageModel) (ra : String) :
    ∀ i ∈ validateRootAgentReference fs m ra,
      i.code ∈ ["CES_ROOT_AGENT_DIR_MISSING", "CES_ROOT_AGENT_MANIFEST_MISSING"] := by
  intro i h
  unfold validateRootAgentReference at h
  repeat' split at h
  all_goals simp_all [mkIssue]

theorem codes_validateGlobalInstructionReference (fs : FileSystem) (m : PackageModel) :
    ∀ i ∈ validateGlobalInstructionReference fs m,
      i.code = "CES_GLOBAL_INSTRUCTION_MISSING" := by
  intro i h
  unfold validateGlobalInstructionReference at h
  repeat' split at h
  all_goals simp_all [globalInstructionMissingIssue, mkIssue]

theorem codes_guardrailEntryIssues (fs : FileSystem) (root mp : String) (g : Json) :
    ∀ i ∈ guardrailEntryIssues fs root mp g,
      i.code ∈ ["CES_GUARDRAIL_REFERENCE_MISSING", "CES_GUARDRAIL_JSON_INVALID",
        "CES_GUARDRAIL_DISPLAYNAME_MISMATCH"] := by
  intro i h
  unfold guardrailEntryIssues at h
  repeat' split at h
  all_goals simp_all [mkIssue]

theorem codes_validateGuardrailReferences (fs : FileSystem) (m : PackageModel) :
    ∀ i ∈ validateGuardrailReferences fs m,
      i.code ∈ ["CES_GUARDRAIL_REFERENCE_MISSING", "CES_GUARDRAIL_JSON_INVALID",
        "CES_GUARDRAIL_DISPLAYNAME_MISMATCH"] := by
  intro i h
  unfold validateGuardrailReferences at h
  split at h
  · cases h
  · split at h
    · cases h
    · split at h
      · rcases List.mem_flatMap.mp h with ⟨g, hg, hi⟩
        exact codes_guardrailEntryIssues fs m.rootPath _ g i hi
      · cases h

theorem codes_validateManifest (fs : FileSystem) (m : PackageModel) :
    ∀ i ∈ validateManifest fs m, i.code ∈ manifestCodes := by
  intro i h
  unfold validateManifest at h
  split at h
  · simp_all [mkIssue, manifestCodes]
  · simp only [List.mem_append] at h
    rcases h with (h | h) | h
    · split at h <;> simp_all [mkIssue, manifestCodes]
    · split at h <;> simp_all [mkIssue, manifestCodes]
    · split at h
      · simp_all [mkIssue, manifestCodes]
      · split at h
        · simp_all [mkIssue, manifestCodes]
        · simp only [List.mem_append] at h
          rcases h with (h | h) | h
          · split at h
            · split at h
              · simp_all [mkIssue, manifestCodes]
              · have hsub := codes_validateRootAgentReference fs m _ i h
                simp_all [manifestCodes]
                tauto
            · simp_all [mkIssue, manifestCodes]
          · have hsub := codes_validateGlobalInstructionReference fs m i h
            simp_all [manifestCodes]
          · have hsub := codes_validateGuardrailReferences fs m i h
            simp_all [manifestCodes]

theorem codes_validateUnsupportedDirectories (fs : FileSystem) (m : PackageModel) :
    ∀ i ∈ validateUnsupportedDirectories fs m,
      i.code ∈ ["CES_UNSUPPORTED_IMPORT_DIRECTORY"] := by
  intro i h
  unfold validateUnsupportedDirectories at h
  refine codes_flatMap ?_ i h
  intro x _ j hj
  split at hj
  · simp at hj
  · simp_all [mkIssue]

theorem nestingIssuesForFile_facts (root fp : String) :
    ∀ i ∈ nestingIssuesForFile root fp, i.file = fp ∧ i.code ∈ nestingCodes := by
  intro i h
  unfold nestingIssuesForFile at h
  repeat' split at h
  all_goals simp_all [nestingDepthIssue, toolsetNestingDepthIssue, guardrailNestingDepthIssue,
    mkIssue, nestingCodes]

theorem codes_validateNestingDepth (m : PackageModel) :
    ∀ i ∈ validateNestingDepth m, i.code ∈ nestingCodes := by
  intro i h
  unfold validateNestingDepth at h
  exact codes_flatMap (fun x _ j hj => (nestingIssuesForFile_facts m.rootPath x j hj).2) i h

theorem codes_agentEntryIssues (fs : FileSystem) (m : PackageModel)
    (tns ans : List String) (a : AgentInfo) :
    ∀ i ∈ agentEntryIssues fs m tns ans a, i.code ∈ agentCodes := by
  intro i h
  unfold agentEntryIssues at h
  simp only [List.mem_append] at h
  rcases h with h | h
  · split at h <;> simp_all [mkIssue, agentCodes]
  · split at h
    · simp at h
    · simp only [List.mem_append] at h
      rcases h with (h | h) | h
      · split at h
        · split at h
          · simp_all [mkIssue, agentCodes]
          · simp only [List.mem_append] at h
            rcases h with h | h
            · split at h <;> simp_all [mkIssue, agentCodes]
            · split at h <;> simp_all [mkIssue, agentCodes]
        · simp_all [mkIssue, agentCodes]
      · split at h
        · refine codes_flatMap ?_ i h
          intro x _ j hj
          repeat' split at hj
          all_goals simp_all [mkIssue, agentCodes]
        · simp at h
      · split at h
        · refine codes_flatMap ?_ i h
          intro x _ j hj
          repeat' split at hj
          all_goals simp_all [mkIssue, agentCodes]
        · simp at h

theorem codes_validateAgents (fs : FileSystem) (m : PackageModel) :
    ∀ i ∈ validateAgents fs m, i.code ∈ agentCodes := by
  intro i h
  unfold validateAgents at h
  exact codes_flatMap (fun x _ => codes_agentEntryIssues fs m _ _ x) i h

theorem codes_toolsetResolveSchema (fs : FileSystem) (m : PackageModel) (t : ToolsetInfo) :
    ∀ i ∈ (toolsetResolveSchema fs m t).1, i.code = "CES_OPENAPI_SCHEMA_MISSING" := by
  intro i h
  unfold toolsetResolveSchema at h
  repeat' split at h
  all_goals simp_all [openApiSchemaMissingIssue, mkIssue]

theorem codes_toolsetEntryIssues (fs : FileSystem) (m : PackageModel) (t : ToolsetInfo) :
    ∀ i ∈ toolsetEntryIssues fs m t, i.code ∈ toolsetCodes := by
  intro i h
  unfold toolsetEntryIssues at h
  split at h
  · simp_all [mkIssue, toolsetCodes]
  · split at h
    · rcases List.mem_append.mp h with h | h
      · have hsub := codes_toolsetResolveSchema fs m t i h
        simp_all [toolsetCodes]
      · simp_all [openApiSchemaNotFoundIssue, mkIssue, toolsetCodes]
    · split at h
      · have hsub := codes_toolsetResolveSchema fs m t i h
        simp_all [toolsetCodes]
      · rcases List.mem_append.mp h with h | h
        · have hsub := codes_toolsetResolveSchema fs m t i h
          simp_all [toolsetCodes]
        · repeat' split at h
          all_goals simp_all [mkIssue, toolsetCodes]

theorem codes_validateToolsets (fs : FileSystem) (m : PackageModel) :
    ∀ i ∈ validateToolsets fs m, i.code ∈ toolsetCodes := by
  intro i h
  unfold validateToolsets at h
  exact codes_flatMap (fun x _ => codes_toolsetEntryIssues fs m x) i h

theorem codes_evalToolCallIssues (fs : FileSystem) (m : PackageModel) (e : EvaluationInfo)
    (tIdx : Nat) (toolName : String) :
    ∀ i ∈ evalToolCallIssues fs m e tIdx toolName, i.code ∈ evaluationCodes := by
  intro i h
  unfold evalToolCallIssues at h
  repeat' split at h
  all_goals simp_all [evalOpenApiIssue, evalUnknownToolIssue, mkIssue, evaluationCodes]

theorem codes_evaluationIssues (fs : FileSystem) (m : PackageModel) (e : EvaluationInfo) :
    ∀ i ∈ evaluationIssues fs m e, i.code ∈ evaluationCodes := by
  intro i h
  unfold evaluationIssues at h
  split at h
  · simp_all [mkIssue, evaluationCodes]
  · simp only [List.mem_append] at h
    rcases h with h | h
    · repeat' split at h
      all_goals simp_all [mkIssue, evaluationCodes]
    · split at h
      · refine codes_flatMap ?_ i h
        intro p _ j hj
        unfold goldenTurnIssues at hj
        split at hj
        · refine codes_flatMap ?_ j hj
          intro s _ j2 hj2
          unfold evaluationStepIssues at hj2
          split at hj2
          · split at hj2
            · cases hj2
            · exact codes_evalToolCallIssues fs m e _ _ j2 hj2
          · cases hj2
        · simp at hj
      · simp at h

theorem codes_validateEvaluations (fs : FileSystem) (m : PackageModel) :
    ∀ i ∈ validateEvaluations fs m, i.code ∈ evaluationCodes := by
  intro i h
  unfold validateEvaluations at h
  exact codes_flatMap (fun x _ => codes_evaluationIssues fs m x) i h

theorem codes_instructionIssues (m : PackageModel) (ans : List String)
    (info : InstructionInfo) :
    ∀ i ∈ instructionIssues m ans info, i.code ∈ instructionCodes := by
  intro i h
  unfold instructionIssues at h
  split at h
  · simp at h
  · simp only [List.mem_append] at h
    rcases h with (((h | h) | h) | h) | h
    · split at h <;> simp_all [mkIssue, instructionCodes]
    · refine codes_flatMap ?_ i h
      intro x _ j hj
      split at hj <;> simp_all [mkIssue, instructionCodes]
    · refine codes_flatMap ?_ i h
      intro x _ j hj
      split at hj <;> simp_all [mkIssue, instructionCodes]
    · refine codes_flatMap ?_ i h
      intro x _ j hj
      split at hj <;> simp_all [mkIssue, instructionCodes]
    · refine codes_flatMap ?_ i h
      intro x _ j hj
      unfold instructionToolCallIssues at hj
      repeat' split at hj
      all_goals simp_all [mkIssue, instructionCodes]

theorem codes_validateInstructions (m : PackageModel) :
    ∀ i ∈ validateInstructions m, i.code ∈ instructionCodes := by
  intro i h
  unfold validateInstructions at h
  exact codes_flatMap (fun x _ => codes_instructionIssues m _ x) i h

theorem codes_environmentToolsetEntryIssues (fs : FileSystem) (fp : String)
    (entry : String × Json) :
    ∀ i ∈ environmentToolsetEntryIssues fs fp entry,
      i.code ∈ ["CES_ENVIRONMENT_TOOLSET_ENTRY_INVALID",
        "CES_ENVIRONMENT_OPENAPI_TOOLSET_INVALID", "CES_ENVIRONMENT_OPENAPI_URL_INVALID"] := by
  intro i h
  unfold environmentToolsetEntryIssues at h
  repeat' split at h
  all_goals simp_all [mkIssue]

theorem codes_validateEnvironment (fs : FileSystem) (m : PackageModel) :
    ∀ i ∈ validateEnvironment fs m, i.code ∈ environmentCodes := by
  intro i h
  unfold validateEnvironment at h
  split at h
  · cases h
  · split at h
    · simp_all [mkIssue, environmentCodes]
    · split at h
      · split at h
        · simp_all [mkIssue, environmentCodes]
        · rcases List.mem_append.mp h with h | h
          · split at h
            · rcases List.mem_flatMap.mp h with ⟨entry, he, hi⟩
              have hsub := codes_environmentToolsetEntryIssues fs _ entry i hi
              simp_all [environmentCodes]
              tauto
            · simp_all [mkIssue, environmentCodes]
          · split at h
            · simp_all [environmentLocalhostIssue, mkIssue, environmentCodes]
            · cases h
      · simp_all [mkIssue, environmentCodes]

theorem mem_ruleBattery_cases {fs : FileSystem} {m : PackageModel} {i : ValidationIssue}
    (h : i ∈ ruleBattery fs m) :
    i ∈ validateManifest fs m ∨ i ∈ validateUnsupportedDirectories fs m ∨
    i ∈ validateNestingDepth m ∨ i ∈ validateAgents fs m ∨ i ∈ validateToolsets fs m ∨
    i ∈ validateEvaluations fs m ∨ i ∈ validateInstructions m ∨
    i ∈ validateEnvironment fs m := by
  unfold ruleBattery at h
  simp only [List.mem_append] at h
  tauto

theorem battery_of_manifest {fs : FileSystem} {m : PackageModel} {i : ValidationIssue}
    (h : i ∈ validateManifest fs m) : i ∈ ruleBattery fs m := by
  unfold ruleBattery
  simp only [List.mem_append]
  tauto

theorem battery_of_nesting {fs : FileSystem} {m : PackageModel} {i : ValidationIssue}
    (h : i ∈ validateNestingDepth m) : i ∈ ruleBattery fs m := by
  unfold ruleBattery
  simp only [List.mem_append]
  tauto

theorem battery_of_toolsets {fs : FileSystem} {m : PackageModel} {i : ValidationIssue}
    (h : i ∈ validateToolsets fs m) : i ∈ ruleBattery fs m := by
  unfold ruleBattery
  simp only [List.mem_append]
  tauto

theorem battery_of_evaluations {fs : FileSystem} {m : PackageModel} {i : ValidationIssue}
    (h : i ∈ validateEvaluations fs m) : i ∈ ruleBattery fs m := by
  unfold ruleBattery
  simp only [List.mem_append]
  tauto

theorem battery_of_environment {fs : FileSystem} {m : PackageModel} {i : ValidationIssue}
    (h : i ∈ validateEnvironment fs m) : i ∈ ruleBattery fs m := by
  unfold ruleBattery
  simp only [List.mem_append]
  tauto

/-- Any issue of `validateManifest` carrying the global-instruction code comes
from the `validateGlobalInstructionReference` component. -/
theorem global_of_validateManifest {fs : FileSystem} {m : PackageModel} {i : ValidationIssue}
    (h : i ∈ validateManifest fs m) (hc : i.code = "CES_GLOBAL_INSTRUCTION_MISSING") :
    i ∈ validateGlobalInstructionReference fs m := by
  unfold validateManifest at h
  split at h
  · simp_all [mkIssue]
  · simp only [List.mem_append] at h
    rcases h with (h | h) | h
    · split at h <;> simp_all [mkIssue]
    · split at h <;> simp_all [mkIssue]
    · split at h
      · simp_all [mkIssue]
      · split at h
        · simp_all [mkIssue]
        · simp only [List.mem_append] at h
          rcases h with (h | h) | h
          · split at h
            · split at h
              · simp_all [mkIssue]
              · have hsub := codes_validateRootAgentReference fs m _ i h
                rw [hc] at hsub
                exact absurd hsub (by decide)
            · simp_all [mkIssue]
          · exact h
          · have hsub := codes_validateGuardrailReferences fs m i h
            rw [hc] at hsub
            exact absurd hsub (by decide)

/-- `validateGlobalInstructionReference` flows into `validateManifest` when the
manifest parsed to a record. -/
theorem manifest_of_global {fs : FileSystem} {m : PackageModel} {i : ValidationIssue}
    {p : String} (hp : m.manifestPath = some p) (herr : m.manifestError = none)
    (hrec : optIsRecord m.manifestData = true)
    (h : i ∈ validateGlobalInstructionReference fs m) : i ∈ validateManifest fs m := by
  unfold validateManifest
  rw [hp, herr, hrec]
  simp only [Bool.not_true, Bool.false_eq_true, if_false, List.mem_append]
  tauto

/-- The characterization of `validateGlobalInstructionReference` for a
non-blank, non-inline declared value. -/
theorem validateGlobalInstructionReference_eq (fs : FileSystem) (m : PackageModel)
    (p g : String) (hp : m.manifestPath = some p)
    (hg : optLookup m.manifestData "globalInstruction" = some (.str g))
    (ht : strTrim g ≠ "") (hin : isLikelyInlineGlobalInstruction g = false) :
    validateGlobalInstructionReference fs m =
      (if fs.existsSync (resolveGlobalInstructionPath m.rootPath g) then []
       else [globalInstructionMissingIssue fs p g]) := by
  unfold validateGlobalInstructionReference
  rw [hp, optIsRecord_of_optLookup hg, hg]
  simp only [Bool.not_true, Bool.false_eq_true, if_false]
  rw [if_neg ht, hin]
  simp only [Bool.false_eq_true, if_false]
  cases hex : fs.existsSync (resolveGlobalInstructionPath m.rootPath g) <;> simp [hex]

/-- C3 (amended): with the code's heuristic — a value is treated as a file
reference exactly when `isLikelyInlineGlobalInstruction` is false, i.e. it is
single-line and (ends in `.txt`, or contains `/`, or is at most 20 characters)
— runRules emits error CES_GLOBAL_INSTRUCTION_MISSING exactly when the
referenced path does not exist on disk. -/
theorem ces_c3 (fs : FileSystem) (m : PackageModel) (p g : String)
    (hp : m.manifestPath = some p) (herr : m.manifestError = none)
    (hg : optLookup m.manifestData "globalInstruction" = some (.str g))
    (ht : strTrim g ≠ "") (hin : isLikelyInlineGlobalInstruction g = false) :
    ((∃ i ∈ runRules fs m, i.code = "CES_GLOBAL_INSTRUCTION_MISSING") ↔
      fs.existsSync (resolveGlobalInstructionPath m.rootPath g) = false) ∧
    validateGlobalInstructionReference fs m =
      (if fs.existsSync (resolveGlobalInstructionPath m.rootPath g) then []
       else [globalInstructionMissingIssue fs p g]) ∧
    (globalInstructionMissingIssue fs p g).severity = .error := by
  have hchar := validateGlobalInstructionReference_eq fs m p g hp hg ht hin
  refine ⟨⟨?_, ?_⟩, hchar, rfl⟩
  · rintro ⟨i, hi, hc⟩
    have hb := mem_runRules.mp hi
    rcases mem_ruleBattery_cases hb with h | h | h | h | h | h | h | h
    · have hgl := global_of_validateManifest h hc
      rw [hchar] at hgl
      cases hex : fs.existsSync (resolveGlobalInstructionPath m.rootPath g)
      · rfl
      · rw [if_pos] at hgl
        · cases hgl
        · rw [hex]
    · have hsub := codes_validateUnsupportedDirectories fs m i h
      rw [hc] at hsub
      exact absurd hsub (by decide)
    · have hsub := codes_validateNestingDepth m i h
      rw [hc] at hsub
      exact absurd hsub (by decide)
    · have hsub := codes_validateAgents fs m i h
      rw [hc] at hsub
      exact absurd hsub (by decide)
    · have hsub := codes_validateToolsets fs m i h
      rw [hc] at hsub
      exact absurd hsub (by decide)
    · have hsub := codes_validateEvaluations fs m i h
      rw [hc] at hsub
      exact absurd hsub (by decide)
    · have hsub := codes_validateInstructions m i h
      rw [hc] at hsub
      exact absurd hsub (by decide)
    · have hsub := codes_validateEnvironment fs m i h
      rw [hc] at hsub
      exact absurd hsub (by decide)
  · intro hex
    refine ⟨globalInstructionMissingIssue fs p g, ?_, rfl⟩
    apply mem_runRules.mpr
    apply battery_of_manifest
    apply manifest_of_global hp herr (optIsRecord_of_optLookup hg)
    rw [hchar, hex]
    simp

/-- Modelled from the spec: the spec's description of the global-instruction
heuristic — "multi-line values, or values ending in the instruction-file
extension, or values containing a path separator, are treated as file
references, while short single-line values are treated as possibly-inline and
skipped" (for comparison against the code's `isLikelyInlineGlobalInstruction`). -/
def specTreatsGlobalInstructionAsFileReference (value : String) : Bool :=
  (chars value).contains '\n' || (chars value).contains '\r' ||
    strEndsWith (strTrim value) ".txt" || (chars (strTrim value)).contains '/'

/-- A filesystem oracle on which nothing exists and nothing parses. -/
def fsDenyAll : FileSystem :=
  { existsSync := fun _ => false
    isDirectorySync := fun _ => false
    parseJsonFile := fun _ => ⟨none, some "missing"⟩
    parseOpenApiFile := fun _ => ⟨none, some "missing"⟩
    findLineContaining := fun _ _ => none
    findLineOpenApiVersion := fun _ => none }

/-- An otherwise-empty package model. -/
def emptyModel : PackageModel :=
  { rootPath := "pkg"
    hasAppJson := false
    hasAppYaml := true
    manifestPath := some "pkg/app.yaml"
    manifestData := some (.obj [("rootAgent", .str "root")])
    manifestError := none
    files := []
    directories := []
    topLevelFiles := []
    topLevelDirs := []
    agentInfos := []
    toolsetInfos := []
    evaluationInfos := []
    instructionInfos := []
    guardrailDirs := []
    environment := none
    directTools := []
    openApiOperations := [] }

/-- Fixture for the C3 counterexample: the manifest declares a multi-line
`globalInstruction` value. -/
def modelC3 : PackageModel :=
  { emptyModel with
    manifestData := some (.obj
      [("rootAgent", .str "root"), ("globalInstruction", .str "Line one\nLine two")]) }

/-- Fixture for the C3 witness: a short single-line `globalInstruction` value
ending in the instruction-file extension. -/
def modelC3w : PackageModel :=
  { emptyModel with
    manifestData := some (.obj
      [("rootAgent", .str "root"), ("globalInstruction", .str "notes.txt")]) }

/-- C3 counterexample: a multi-line `globalInstruction` value is a file
reference under the spec's heuristic and its path does not exist, yet runRules
emits no CES_GLOBAL_INSTRUCTION_MISSING issue (the code treats multi-line
values as inline and skips them). -/
theorem ces_c3_counterexample :
    specTreatsGlobalInstructionAsFileReference "Line one\nLine two" = true ∧
    strTrim "Line one\nLine two" ≠ "" ∧
    fsDenyAll.existsSync (resolveGlobalInstructionPath "pkg" "Line one\nLine two") = false ∧
    ∀ i ∈ runRules fsDenyAll modelC3, i.code ≠ "CES_GLOBAL_INSTRUCTION_MISSING" := by
  refine ⟨by decide, by decide, rfl, ?_⟩
  have hall : ∀ i ∈ ruleBattery fsDenyAll modelC3,
      i.code ≠ "CES_GLOBAL_INSTRUCTION_MISSING" := by decide
  exact fun i hi => hall i (mem_runRules.mp hi)

/-- C3 witness: the amended theorem applied to a short `.txt` reference on a
filesystem without that file. -/
theorem ces_c3_witness :
    ((∃ i ∈ runRules fsDenyAll modelC3w, i.code = "CES_GLOBAL_INSTRUCTION_MISSING") ↔
      fsDenyAll.existsSync (resolveGlobalInstructionPath modelC3w.rootPath "notes.txt") = false) ∧
    validateGlobalInstructionReference fsDenyAll modelC3w =
      (if fsDenyAll.existsSync (resolveGlobalInstructionPath modelC3w.rootPath "notes.txt") then []
       else [globalInstructionMissingIssue fsDenyAll "pkg/app.yaml" "notes.txt"]) ∧
    (globalInstructionMissingIssue fsDenyAll "pkg/app.yaml" "notes.txt").severity = .error :=
  ces_c3 fsDenyAll modelC3w "pkg/app.yaml" "notes.txt" rfl rfl rfl (by decide) (by decide)

/-! ## Environment localhost warning (C6) -/

theorem countP_zero_of_codes {l : List ValidationIssue} {S : List String} {t : String}
    (hS : ∀ i ∈ l, i.code ∈ S) (ht : t ∉ S) :
    l.countP (fun i => i.code == t) = 0 := by
  rw [List.countP_eq_zero]
  intro i hi hP
  have hc : i.code = t := by simpa using hP
  exact ht (hc ▸ hS i hi)

theorem countP_validateEnvironment (fs : FileSystem) (m : PackageModel)
    {env : EnvironmentInfo} {envData : Json} (he : m.environment = some env)
    (herr : env.error = none) (hdata : env.data = some envData)
    (hrec : envData.isRecord = true) :
    (validateEnvironment fs m).countP (fun i => i.code == "CES_ENVIRONMENT_LOCALHOST_WARNING") =
      if containsLocalhostReference envData then 1 else 0 := by
  unfold validateEnvironment
  simp only [he, herr, hdata, hrec, Bool.not_true, Bool.false_eq_true, if_false]
  rw [List.countP_append]
  have h0 : ((match envData.lookup "toolsets" with
      | some (.obj toolsetFields) =>
        toolsetFields.flatMap (environmentToolsetEntryIssues fs env.filePath)
      | _ =>
        [mkIssue "CES_ENVIRONMENT_TOOLSETS_INVALID"
          "environment.json must contain a 'toolsets' object"
          .error env.filePath (fs.findLineContaining env.filePath "toolsets")] :
      List ValidationIssue)).countP
        (fun i => i.code == "CES_ENVIRONMENT_LOCALHOST_WARNING") = 0 := by
    apply countP_zero_of_codes
      (S := ["CES_ENVIRONMENT_TOOLSET_ENTRY_INVALID", "CES_ENVIRONMENT_OPENAPI_TOOLSET_INVALID",
        "CES_ENVIRONMENT_OPENAPI_URL_INVALID", "CES_ENVIRONMENT_TOOLSETS_INVALID"])
    · intro i hi
      split at hi
      · rcases List.mem_flatMap.mp hi with ⟨entry, hentry, hie⟩
        have hsub := codes_environmentToolsetEntryIssues fs env.filePath entry i hie
        simp_all
        tauto
      · simp_all [mkIssue]
    · decide
  rw [h0]
  split
  · simp [environmentLocalhostIssue, mkIssue, List.countP_cons]
  · simp

theorem env_localhost_severity (fs : FileSystem) (m : PackageModel) :
    ∀ i ∈ validateEnvironment fs m,
      i.code = "CES_ENVIRONMENT_LOCALHOST_WARNING" → i.severity = .warning := by
  intro i h hc
  unfold validateEnvironment at h
  split at h
  · cases h
  · split at h
    · simp_all [mkIssue]
    · split at h
      · split at h
        · simp_all [mkIssue]
        · rcases List.mem_append.mp h with h | h
          · split at h
            · rcases List.mem_flatMap.mp h with ⟨entry, he2, hi⟩
              have hsub := codes_environmentToolsetEntryIssues fs _ entry i hi
              rw [hc] at hsub
              exact absurd hsub (by decide)
            · simp_all [mkIssue]
          · split at h
            · simp_all [environmentLocalhostIssue, mkIssue]
            · cases h
      · simp_all [mkIssue]

/-- C6: for an environment document that parsed to a record, runRules emits
the localhost warning exactly once iff some string value anywhere in the
document contains localhost or 127.0.0.1 case-insensitively (zero times
otherwise), and every emitted issue of that code has warning severity. -/
theorem ces_c6 (fs : FileSystem) (m : PackageModel) (env : EnvironmentInfo) (envData : Json)
    (he : m.environment = some env) (herr : env.error = none)
    (hdata : env.data = some envData) (hrec : envData.isRecord = true) :
    (runRules fs m).countP (fun i => i.code == "CES_ENVIRONMENT_LOCALHOST_WARNING") =
      (if containsLocalhostReference envData then 1 else 0) ∧
    ∀ i ∈ runRules fs m,
      i.code = "CES_ENVIRONMENT_LOCALHOST_WARNING" → i.severity = .warning := by
  constructor
  · rw [countP_runRules]
    unfold ruleBattery
    repeat rw [List.countP_append]
    rw [countP_zero_of_codes (codes_validateManifest fs m) (by decide),
      countP_zero_of_codes (codes_validateUnsupportedDirectories fs m) (by decide),
      countP_zero_of_codes (codes_validateNestingDepth m) (by decide),
      countP_zero_of_codes (codes_validateAgents fs m) (by decide),
      countP_zero_of_codes (codes_validateToolsets fs m) (by decide),
      countP_zero_of_codes (codes_validateEvaluations fs m) (by decide),
      countP_zero_of_codes (codes_validateInstructions m) (by decide),
      countP_validateEnvironment fs m he herr hdata hrec]
    simp only [Nat.zero_add]
  · intro i hi hc
    rcases mem_ruleBattery_cases (mem_runRules.mp hi) with h | h | h | h | h | h | h | h
    · have hsub := codes_validateManifest fs m i h
      rw [hc] at hsub
      exact absurd hsub (by decide)
    · have hsub := codes_validateUnsupportedDirectories fs m i h
      rw [hc] at hsub
      exact absurd hsub (by decide)
    · have hsub := codes_validateNestingDepth m i h
      rw [hc] at hsub
      exact absurd hsub (by decide)
    · have hsub := codes_validateAgents fs m i h
      rw [hc] at hsub
      exact absurd hsub (by decide)
    · have hsub := codes_validateToolsets fs m i h
      rw [hc] at hsub
      exact absurd hsub (by decide)
    · have hsub := codes_validateEvaluations fs m i h
      rw [hc] at hsub
      exact absurd hsub (by decide)
    · have hsub := codes_validateInstructions m i h
      rw [hc] at hsub
      exact absurd hsub (by decide)
    · exact env_localhost_severity fs m i h hc

/-- Fixture for the C6 witness: two localhost occurrences nested inside an
array and a record of the environment document. -/
def envDataC6 : Json :=
  .obj [("toolsets", .obj []),
    ("endpoints", .arr [.obj [("url", .str "http://LOCALHOST:3000/api")],
      .str "http://127.0.0.1/health"])]

/-- Environment fixture for the C6 witness. -/
def envInfoC6 : EnvironmentInfo :=
  { filePath := "pkg/environment.json", data := some envDataC6, error := none }

/-- Model fixture for the C6 witness. -/
def modelC6 : PackageModel := { emptyModel with environment := some envInfoC6 }

/-- C6 witness: the theorem applied to a document with two nested localhost
occurrences. -/
theorem ces_c6_witness :
    (runRules fsDenyAll modelC6).countP
        (fun i => i.code == "CES_ENVIRONMENT_LOCALHOST_WARNING") =
      (if containsLocalhostReference envDataC6 then 1 else 0) ∧
    ∀ i ∈ runRules fsDenyAll modelC6,
      i.code = "CES_ENVIRONMENT_LOCALHOST_WARNING" → i.severity = .warning :=
  ces_c6 fsDenyAll modelC6 envInfoC6 envDataC6 rfl rfl rfl rfl

/-! ## Toolset schema resolution (C8) -/

theorem toolsetResolveSchema_missing (fs : FileSystem) (m : PackageModel) (t : ToolsetInfo)
    (d : String) (hd : readDeclaredSchemaPath t.manifestData = some d) (hne : d ≠ "")
    (hmiss : fs.existsSync (resolveFromRoot m.rootPath (normalizeSeparators d)) = false) :
    toolsetResolveSchema fs m t =
      ([openApiSchemaMissingIssue fs t (normalizeSeparators d)], none) := by
  unfold toolsetResolveSchema
  simp only [hd]
  rw [if_pos hne, hmiss]
  rfl

/-- C8: for a toolset whose manifest declares an explicit (truthy)
`openApiToolset.openApiSchema` path that does not exist on disk, runRules
emits error CES_OPENAPI_SCHEMA_MISSING and the declared value is discarded
without falling back to the auto-detected schema; consequently, when the
`open_api_toolset` directory exists, CES_OPENAPI_SCHEMA_NOT_FOUND is
additionally emitted — whatever `autoDetectedSchemaPath` holds. -/
theorem ces_c8 (fs : FileSystem) (m : PackageModel) (t : ToolsetInfo) (d : String)
    (ht : t ∈ m.toolsetInfos) (herr : t.manifestError = none)
    (hd : readDeclaredSchemaPath t.manifestData = some d) (hne : d ≠ "")
    (hmiss : fs.existsSync (resolveFromRoot m.rootPath (normalizeSeparators d)) = false) :
    toolsetEntryIssues fs m t =
      [openApiSchemaMissingIssue fs t (normalizeSeparators d)] ++
        (if fs.existsSync t.openApiDirPath && fs.isDirectorySync t.openApiDirPath then
          [openApiSchemaNotFoundIssue fs t]
        else []) ∧
    openApiSchemaMissingIssue fs t (normalizeSeparators d) ∈ runRules fs m ∧
    (openApiSchemaMissingIssue fs t (normalizeSeparators d)).severity = .error ∧
    ((fs.existsSync t.openApiDirPath && fs.isDirectorySync t.openApiDirPath) = true →
      openApiSchemaNotFoundIssue fs t ∈ runRules fs m ∧
      (openApiSchemaNotFoundIssue fs t).severity = .error) := by
  have hres := toolsetResolveSchema_missing fs m t d hd hne hmiss
  have hchar : toolsetEntryIssues fs m t =
      [openApiSchemaMissingIssue fs t (normalizeSeparators d)] ++
        (if fs.existsSync t.openApiDirPath && fs.isDirectorySync t.openApiDirPath then
          [openApiSchemaNotFoundIssue fs t]
        else []) := by
    unfold toolsetEntryIssues
    rw [herr, hres]
    cases hdir : (fs.existsSync t.openApiDirPath && fs.isDirectorySync t.openApiDirPath) <;>
      simp [hdir]
  have hstep : ∀ i ∈ toolsetEntryIssues fs m t, i ∈ runRules fs m := by
    intro i hi
    apply mem_runRules.mpr
    apply battery_of_toolsets
    unfold validateToolsets
    exact List.mem_flatMap.mpr ⟨t, ht, hi⟩
  refine ⟨hchar, hstep _ ?_, rfl, fun hdir => ⟨hstep _ ?_, rfl⟩⟩
  · rw [hchar]
    simp
  · rw [hchar, hdir]
    simp

/-- Toolset fixture for the C8 witness: a declared schema path that is absent
on disk, with an auto-detectable schema file present in `open_api_toolset/`. -/
def toolsetC8 : ToolsetInfo :=
  { name := "api"
    dirPath := "pkg/toolsets/api"
    manifestPath := "pkg/toolsets/api/api.json"
    manifestData := some (.obj [("openApiToolset",
      .obj [("openApiSchema", .str "toolsets/api/open_api_toolset/missing.yaml")])])
    manifestError := none
    openApiDirPath := "pkg/toolsets/api/open_api_toolset"
    autoDetectedSchemaPath := some "pkg/toolsets/api/open_api_toolset/schema.yaml" }

/-- Filesystem fixture for the C8 witness: only the OpenAPI directory and the
auto-detected schema file exist. -/
def fsC8 : FileSystem :=
  { existsSync := fun p =>
      p == "pkg/toolsets/api/open_api_toolset" ||
        p == "pkg/toolsets/api/open_api_toolset/schema.yaml"
    isDirectorySync := fun p => p == "pkg/toolsets/api/open_api_toolset"
    parseJsonFile := fun _ => ⟨none, some "missing"⟩
    parseOpenApiFile := fun _ => ⟨none, some "missing"⟩
    findLineContaining := fun _ _ => none
    findLineOpenApiVersion := fun _ => none }

/-- Model fixture for the C8 witness. -/
def modelC8 : PackageModel := { emptyModel with toolsetInfos := [toolsetC8] }

/-- C8 witness: the theorem applied to the fixture where the declared path is
missing while an auto-detectable schema exists. -/
theorem ces_c8_witness :
    toolsetEntryIssues fsC8 modelC8 toolsetC8 =
      [openApiSchemaMissingIssue fsC8 toolsetC8
          (normalizeSeparators "toolsets/api/open_api_toolset/missing.yaml")] ++
        (if fsC8.existsSync toolsetC8.openApiDirPath &&
            fsC8.isDirectorySync toolsetC8.openApiDirPath then
          [openApiSchemaNotFoundIssue fsC8 toolsetC8]
        else []) ∧
    openApiSchemaMissingIssue fsC8 toolsetC8
        (normalizeSeparators "toolsets/api/open_api_toolset/missing.yaml") ∈
      runRules fsC8 modelC8 ∧
    (openApiSchemaMissingIssue fsC8 toolsetC8
        (normalizeSeparators "toolsets/api/open_api_toolset/missing.yaml")).severity =
      .error ∧
    ((fsC8.existsSync toolsetC8.openApiDirPath &&
        fsC8.isDirectorySync toolsetC8.openApiDirPath) = true →
      openApiSchemaNotFoundIssue fsC8 toolsetC8 ∈ runRules fsC8 modelC8 ∧
      (openApiSchemaNotFoundIssue fsC8 toolsetC8).severity = .error) :=
  ces_c8 fsC8 modelC8 toolsetC8 "toolsets/api/open_api_toolset/missing.yaml"
    (List.mem_singleton.mpr rfl) rfl rfl (by decide) (by decide)

/-! ## Nesting depth (C5) -/

theorem nestingIssuesForFile_eq (root f top s2 : String) (rest : List String)
    (hseg : (strSplitOn (toRelativePath root f) '/').filter (fun s => s ≠ "") =
      top :: s2 :: rest) :
    nestingIssuesForFile root f =
      (if (top = "agents" ∨ top = "tools" ∨ top = "examples") ∧
          getDepthBelowTopLevel (toRelativePath root f) > ROOT_DEPTH_LIMIT then
        [nestingDepthIssue f top (getDepthBelowTopLevel (toRelativePath root f))]
      else if top = "toolsets" ∧
          getDepthBelowTopLevel (toRelativePath root f) > TOOLSET_DEPTH_LIMIT then
        [toolsetNestingDepthIssue f (getDepthBelowTopLevel (toRelativePath root f))]
      else if top = "guardrails" ∧
          getDepthBelowTopLevel (toRelativePath root f) > ROOT_DEPTH_LIMIT then
        [guardrailNestingDepthIssue f (getDepthBelowTopLevel (toRelativePath root f))]
      else []) := by
  unfold nestingIssuesForFile
  rw [hseg]

/-- When a file's own nesting check is silent, no nesting-code issue for that
file appears anywhere in the output. -/
theorem no_nesting_for_file (fs : FileSystem) (m : PackageModel) (f : String)
    (hempty : nestingIssuesForFile m.rootPath f = []) :
    ∀ i ∈ runRules fs m, i.file = f → i.code ∉ nestingCodes := by
  intro i hi hfile hcode
  rcases mem_ruleBattery_cases (mem_runRules.mp hi) with h | h | h | h | h | h | h | h
  · exact (by decide : ∀ x ∈ manifestCodes, x ∉ nestingCodes) _
      (codes_validateManifest fs m i h) hcode
  · exact (by decide : ∀ x ∈ ["CES_UNSUPPORTED_IMPORT_DIRECTORY"], x ∉ nestingCodes) _
      (codes_validateUnsupportedDirectories fs m i h) hcode
  · rcases List.mem_flatMap.mp h with ⟨fp, hfp, hifp⟩
    have hfacts := nestingIssuesForFile_facts m.rootPath fp i hifp
    have hff : fp = f := by rw [← hfacts.1, hfile]
    rw [hff, hempty] at hifp
    cases hifp
  · exact (by decide : ∀ x ∈ agentCodes, x ∉ nestingCodes) _
      (codes_validateAgents fs m i h) hcode
  · exact (by decide : ∀ x ∈ toolsetCodes, x ∉ nestingCodes) _
      (codes_validateToolsets fs m i h) hcode
  · exact (by decide : ∀ x ∈ evaluationCodes, x ∉ nestingCodes) _
      (codes_validateEvaluations fs m i h) hcode
  · exact (by decide : ∀ x ∈ instructionCodes, x ∉ nestingCodes) _
      (codes_validateInstructions m i h) hcode
  · exact (by decide : ∀ x ∈ environmentCodes, x ∉ nestingCodes) _
      (codes_validateEnvironment fs m i h) hcode

theorem nesting_mem_runRules {fs : FileSystem} {m : PackageModel} {f : String}
    {i : ValidationIssue} (hf : f ∈ m.files) (hi : i ∈ nestingIssuesForFile m.rootPath f) :
    i ∈ runRules fs m := by
  apply mem_runRules.mpr
  apply battery_of_nesting
  unfold validateNestingDepth
  exact List.mem_flatMap.mpr ⟨f, hf, hi⟩

/-- C5: measuring depth in path segments below the top-level folder (not
counting the folder, counting the file name): under agents/, tools/ or
examples/ a file at depth exactly 2 produces no nesting warning while depth
greater than 2 always produces CES_NESTING_DEPTH_EXCEEDED; under toolsets/ the
limit is 3 with code CES_TOOLSET_NESTING_DEPTH_EXCEEDED; under guardrails/ the
limit is 2 with code CES_GUARDRAIL_NESTING_DEPTH_EXCEEDED. -/
theorem ces_c5 (fs : FileSystem) (m : PackageModel) (f top s2 : String) (rest : List String)
    (hf : f ∈ m.files)
    (hseg : (strSplitOn (toRelativePath m.rootPath f) '/').filter (fun s => s ≠ "") =
      top :: s2 :: rest) :
    ((top = "agents" ∨ top = "tools" ∨ top = "examples") →
      (getDepthBelowTopLevel (toRelativePath m.rootPath f) = 2 →
        ∀ i ∈ runRules fs m, i.file = f → i.code ∉ nestingCodes) ∧
      (getDepthBelowTopLevel (toRelativePath m.rootPath f) > 2 →
        nestingDepthIssue f top (getDepthBelowTopLevel (toRelativePath m.rootPath f)) ∈
          runRules fs m ∧
        (nestingDepthIssue f top
          (getDepthBelowTopLevel (toRelativePath m.rootPath f))).severity = .warning)) ∧
    (top = "toolsets" →
      (getDepthBelowTopLevel (toRelativePath m.rootPath f) = 3 →
        ∀ i ∈ runRules fs m, i.file = f → i.code ∉ nestingCodes) ∧
      (getDepthBelowTopLevel (toRelativePath m.rootPath f) > 3 →
        toolsetNestingDepthIssue f (getDepthBelowTopLevel (toRelativePath m.rootPath f)) ∈
          runRules fs m ∧
        (toolsetNestingDepthIssue f
          (getDepthBelowTopLevel (toRelativePath m.rootPath f))).severity = .warning)) ∧
    (top = "guardrails" →
      (getDepthBelowTopLevel (toRelativePath m.rootPath f) = 2 →
        ∀ i ∈ runRules fs m, i.file = f → i.code ∉ nestingCodes) ∧
      (getDepthBelowTopLevel (toRelativePath m.rootPath f) > 2 →
        guardrailNestingDepthIssue f (getDepthBelowTopLevel (toRelativePath m.rootPath f)) ∈
          runRules fs m ∧
        (guardrailNestingDepthIssue f
          (getDepthBelowTopLevel (toRelativePath m.rootPath f))).severity = .warning)) := by
  have hchar := nestingIssuesForFile_eq m.rootPath f top s2 rest hseg
  refine ⟨fun htop => ⟨?_, ?_⟩, fun htop => ⟨?_, ?_⟩, fun htop => ⟨?_, ?_⟩⟩
  · intro hdepth
    apply no_nesting_for_file
    rw [hchar, hdepth]
    rw [if_neg (by simp [ROOT_DEPTH_LIMIT])]
    rw [if_neg (by simp [TOOLSET_DEPTH_LIMIT])]
    rw [if_neg (by simp [ROOT_DEPTH_LIMIT])]
  · intro hdepth
    refine ⟨nesting_mem_runRules hf ?_, rfl⟩
    rw [hchar]
    rw [if_pos ⟨htop, by simpa [ROOT_DEPTH_LIMIT] using hdepth⟩]
    simp
  · subst htop
    intro hdepth
    apply no_nesting_for_file
    rw [hchar, hdepth]
    rw [if_neg (by simp)]
    rw [if_neg (by simp [TOOLSET_DEPTH_LIMIT])]
    rw [if_neg (by simp)]
  · subst htop
    intro hdepth
    refine ⟨nesting_mem_runRules hf ?_, rfl⟩
    rw [hchar]
    rw [if_neg (by simp)]
    rw [if_pos ⟨rfl, by simpa [TOOLSET_DEPTH_LIMIT] using hdepth⟩]
    simp
  · subst htop
    intro hdepth
    apply no_nesting_for_file
    rw [hchar, hdepth]
    rw [if_neg (by simp [ROOT_DEPTH_LIMIT])]
    rw [if_neg (by simp)]
    rw [if_neg (by simp [ROOT_DEPTH_LIMIT])]
  · subst htop
    intro hdepth
    refine ⟨nesting_mem_runRules hf ?_, rfl⟩
    rw [hchar]
    rw [if_neg (by simp)]
    rw [if_neg (by simp)]
    rw [if_pos ⟨rfl, by simpa [ROOT_DEPTH_LIMIT] using hdepth⟩]
    simp

/-- Model fixture for the C5 witness: one file three segments below agents/. -/
def modelC5 : PackageModel := { emptyModel with files := ["pkg/agents/a/b/c.txt"] }

/-- C5 witness: the theorem applied to a file one level past the agents limit. -/
theorem ces_c5_witness :
    nestingDepthIssue "pkg/agents/a/b/c.txt" "agents"
        (getDepthBelowTopLevel (toRelativePath "pkg" "pkg/agents/a/b/c.txt")) ∈
      runRules fsDenyAll modelC5 ∧
    (nestingDepthIssue "pkg/agents/a/b/c.txt" "agents"
        (getDepthBelowTopLevel (toRelativePath "pkg" "pkg/agents/a/b/c.txt"))).severity =
      .warning :=
  ((ces_c5 fsDenyAll modelC5 "pkg/agents/a/b/c.txt" "agents" "a" ["b", "c.txt"]
      (List.mem_singleton.mpr rfl) (by decide)).1 (Or.inl rfl)).2 (by decide)

/-! ## Evaluation toolCall classification (C1) -/

theorem step_of_toolcall {fs : FileSystem} {m : PackageModel} {e : EvaluationInfo}
    {tIdx : Nat} {step : Json} {toolName : String} {i : ValidationIssue}
    (htool : optLookup (optLookup (step.lookup "expectation") "toolCall") "tool" =
      some (.str toolName))
    (hname : strTrim toolName ≠ "")
    (hi : i ∈ evalToolCallIssues fs m e tIdx toolName) :
    i ∈ evaluationStepIssues fs m e tIdx step := by
  unfold evaluationStepIssues
  simp only [htool]
  rw [if_neg hname]
  exact hi

theorem mem_validateEvaluations_of_step {fs : FileSystem} {m : PackageModel}
    {e : EvaluationInfo} {tIdx : Nat} {turn : Json} {turns steps : List Json} {step : Json}
    {i : ValidationIssue}
    (he : e ∈ m.evaluationInfos)
    (herr : e.manifestError = none)
    (hturns : optLookup (optLookup e.manifestData "golden") "turns" = some (.arr turns))
    (ht : turns[tIdx]? = some turn)
    (hsteps : turn.lookup "steps" = some (.arr steps))
    (hstep : step ∈ steps)
    (hi : i ∈ evaluationStepIssues fs m e tIdx step) :
    i ∈ validateEvaluations fs m := by
  unfold validateEvaluations
  refine List.mem_flatMap.mpr ⟨e, he, ?_⟩
  unfold evaluationIssues
  simp only [herr]
  refine List.mem_append.mpr (Or.inr ?_)
  simp only [hturns]
  refine List.mem_flatMap.mpr ⟨(tIdx, turn), List.mk_mem_enum_iff_getElem?.mpr ht, ?_⟩
  unfold goldenTurnIssues
  simp only [hsteps]
  exact List.mem_flatMap.mpr ⟨step, hstep, hi⟩

/-- C1: for every string tool name found under
`golden.turns[].steps[].expectation.toolCall.tool` (non-blank): membership in
`openApiOperations` always yields the error-severity OpenAPI-operation issue in
runRules, even when the name is also in `directTools`; otherwise the unknown-
tool error is produced exactly when `directTools` is non-empty and lacks the
name, and nothing is produced in the remaining cases. -/
theorem ces_c1 (fs : FileSystem) (m : PackageModel) (e : EvaluationInfo) (tIdx : Nat)
    (turn : Json) (turns steps : List Json) (step : Json) (toolName : String)
    (he : e ∈ m.evaluationInfos)
    (herr : e.manifestError = none)
    (hturns : optLookup (optLookup e.manifestData "golden") "turns" = some (.arr turns))
    (ht : turns[tIdx]? = some turn)
    (hsteps : turn.lookup "steps" = some (.arr steps))
    (hstep : step ∈ steps)
    (htool : optLookup (optLookup (step.lookup "expectation") "toolCall") "tool" =
      some (.str toolName))
    (hname : strTrim toolName ≠ "") :
    (∀ i ∈ evalToolCallIssues fs m e tIdx toolName, i ∈ runRules fs m) ∧
    (m.openApiOperations.contains toolName = true →
      evalToolCallIssues fs m e tIdx toolName = [evalOpenApiIssue fs e tIdx toolName] ∧
      evalOpenApiIssue fs e tIdx toolName ∈ runRules fs m ∧
      (evalOpenApiIssue fs e tIdx toolName).severity = .error) ∧
    (m.openApiOperations.contains toolName = false →
      evalToolCallIssues fs m e tIdx toolName =
        (if m.directTools ≠ [] ∧ m.directTools.contains toolName = false then
          [evalUnknownToolIssue fs m e tIdx toolName]
        else [])) := by
  have hlift : ∀ i ∈ evalToolCallIssues fs m e tIdx toolName, i ∈ runRules fs m := by
    intro i hi
    exact mem_runRules.mpr (battery_of_evaluations
      (mem_validateEvaluations_of_step he herr hturns ht hsteps hstep
        (step_of_toolcall htool hname hi)))
  refine ⟨hlift, fun hop => ?_, fun hop => ?_⟩
  · have hchar : evalToolCallIssues fs m e tIdx toolName =
        [evalOpenApiIssue fs e tIdx toolName] := by
      unfold evalToolCallIssues
      rw [if_pos hop]
    exact ⟨hchar, hlift _ (by rw [hchar]; simp), rfl⟩
  · unfold evalToolCallIssues
    rw [hop]
    simp only [Bool.false_eq_true, if_false]
    by_cases hdt : m.directTools = []
    · simp [hdt]
    · by_cases hct : m.directTools.contains toolName
      · simp [List.isEmpty_iff, hdt, hct]
      · simp [List.isEmpty_iff, hdt, hct]

/-- The golden step fixture for the C1 witness. -/
def stepC1 : Json :=
  .obj [("expectation", .obj [("toolCall", .obj [("tool", .str "getPets")])])]

/-- The golden turn fixture for the C1 witness. -/
def turnC1 : Json := .obj [("steps", .arr [stepC1])]

/-- Evaluation fixture for the C1 witness. -/
def evalC1 : EvaluationInfo :=
  { name := "smoke"
    dirPath := "pkg/evaluations/smoke"
    manifestPath := "pkg/evaluations/smoke/smoke.json"
    manifestData := some (.obj [("displayName", .str "smoke"),
      ("golden", .obj [("turns", .arr [turnC1])])])
    manifestError := none }

/-- Model fixture for the C1 witness: `getPets` is both an OpenAPI operation
and a direct tool, exercising the precedence case. -/
def modelC1 : PackageModel :=
  { emptyModel with
    evaluationInfos := [evalC1]
    directTools := ["getPets"]
    openApiOperations := ["getPets"] }

/-- C1 witness: the theorem applied where the expected tool name is an OpenAPI
operation that also appears among the direct tools. -/
theorem ces_c1_witness :
    evalToolCallIssues fsDenyAll modelC1 evalC1 0 "getPets" =
      [evalOpenApiIssue fsDenyAll evalC1 0 "getPets"] ∧
    evalOpenApiIssue fsDenyAll evalC1 0 "getPets" ∈ runRules fsDenyAll modelC1 ∧
    (evalOpenApiIssue fsDenyAll evalC1 0 "getPets").severity = .error :=
  (ces_c1 fsDenyAll modelC1 evalC1 0 turnC1 [turnC1] [stepC1] stepC1 "getPets"
    (List.mem_singleton.mpr rfl) rfl rfl rfl rfl (List.mem_singleton.mpr rfl) rfl
    (by decide)).2.1 rfl

/-- C7: For every package model, the issue list returned by runRules is sorted
lexicographically by the key (file path, line number with a missing line
treated as 1, issue code), and the sort is stable: issues with equal keys keep
the relative order in which the rule battery produced them.  Stated as: the
output is a permutation of the battery's output, pairwise ordered by the
lexicographic key order, and for every key the sublist of issues with that key
is unchanged from the battery's. -/
theorem ces_c7 (fs : FileSystem) (m : PackageModel) :
    List.Perm (runRules fs m) (ruleBattery fs m) ∧
    (runRules fs m).Pairwise IssueKeyLE ∧
    ∀ k : String × Nat × String,
      (runRules fs m).filter (fun i => decide (issueKey i = k)) =
        (ruleBattery fs m).filter (fun i => decide (issueKey i = k)) := by
  refine ⟨List.mergeSort_perm _ _, ?_, ?_⟩
  · have hs := @List.sorted_mergeSort ValidationIssue issueLE issueLE_trans issueLE_total
      (ruleBattery fs m)
    exact hs.imp (fun h => issueLE_iff.mp h)
  · intro k
    have hpair : ((ruleBattery fs m).filter (fun i => decide (issueKey i = k))).Pairwise
        (fun a b => issueLE a b) := by
      apply List.pairwise_of_forall_mem_list
      intro a ha b hb
      have hka : issueKey a = k := of_decide_eq_true ((List.mem_filter.mp ha).2)
      have hkb : issueKey b = k := of_decide_eq_true ((List.mem_filter.mp hb).2)
      exact issueLE_of_key_eq (hka.trans hkb.symm)
    have hsub : List.Sublist ((ruleBattery fs m).filter (fun i => decide (issueKey i = k)))
        (ruleBattery fs m) := List.filter_sublist _
    have h2 : List.Sublist ((ruleBattery fs m).filter (fun i => decide (issueKey i = k)))
        (runRules fs m) := List.sublist_mergeSort issueLE_trans issueLE_total hpair hsub
    have h3 : ((ruleBattery fs m).filter (fun i => decide (issueKey i = k))).filter
          (fun i => decide (issueKey i = k)) =
        (ruleBattery fs m).filter (fun i => decide (issueKey i = k)) :=
      List.filter_eq_self.mpr (fun a ha => (List.mem_filter.mp ha).2)
    have h4 : List.Sublist ((ruleBattery fs m).filter (fun i => decide (issueKey i = k)))
        ((runRules fs m).filter (fun i => decide (issueKey i = k))) := by
      have h := h2.filter (fun i => decide (issueKey i = k))
      rwa [h3] at h
    have h5 : ((runRules fs m).filter (fun i => decide (issueKey i = k))).length =
        ((ruleBattery fs m).filter (fun i => decide (issueKey i = k))).length :=
      ((List.mergeSort_perm (ruleBattery fs m) issueLE).filter
        (fun i => decide (issueKey i = k))).length_eq
    exact (h4.eq_of_length h5.symm).symm

end CES
